import Mathlib

/-!
Shallow embedding of the `go-cache` file backend (`file.go` together with the
helper file holding `EncodeGob`/`DecodeGob`/`Incr`/`Decr`/`isNotNumber`/
`setValue`/`ToStr`), and proofs of the frozen claims about it.

Conventions used throughout:
* Go `interface{}` values that the cache creates or consumes are embedded as
  the inductive `GoVal`.  Machine integers are `Int`/`Nat` with explicit
  wrap-around modulo `2^w` where the Go code can overflow (64-bit platform,
  so Go `int`/`uint` are 64 bits wide).
* The on-disk tree is a finite association list from path strings to file
  contents; a file either gob-decodes to an `Item` or is corrupt.
* Wall-clock time is an explicit `now : Int` parameter (Unix seconds), the
  value `time.Now().Unix()` would return at that call.
* Operations that can panic in Go (failed type assertions, assignment to a
  nil map) return through the `GoOut` wrapper whose `panic` constructor
  marks exactly those paths.
-/

set_option maxRecDepth 8000

/-- Embedding of the Go dynamic (`interface{}`) values this cache creates or
stores.  `vfloat64` only ever arises from `json.Marshal`/`Unmarshal` round
trips of integer payloads in this development, so it carries the integral
value.  `vmap` is `map[string]interface{}` as an association list (Go maps
are unordered; the list order is a representation artifact).  `vblob w` is a
`[]byte` value holding the JSON encoding of `w` — the only byte values this
program ever creates (`Set` marshals every non-scalar before storing).
`vnull` is the nil interface value (JSON `null`). -/
inductive GoVal : Type where
  | vint (n : Int)
  | vint8 (n : Int)
  | vint16 (n : Int)
  | vint32 (n : Int)
  | vint64 (n : Int)
  | vuint (n : Nat)
  | vuint8 (n : Nat)
  | vuint16 (n : Nat)
  | vuint32 (n : Nat)
  | vuint64 (n : Nat)
  | vfloat64 (n : Int)
  | vbool (b : Bool)
  | vstr (s : String)
  | vnull
  | vmap (m : List (String × GoVal))
  | vblob (w : GoVal)

/-- Two's-complement wrap-around of a signed `w`-bit Go integer. -/
def wrapI (w : Nat) (z : Int) : Int :=
  (z + 2 ^ (w - 1)) % 2 ^ w - 2 ^ (w - 1)

/-- Source `isNotNumber` (helper file): `false` exactly for the listed scalar
kinds (all integer kinds, both floats, `string`, `bool`); everything else —
maps, byte slices, nil — falls to the `default` branch and is "not a
number". -/
def isNotNumber : GoVal → Bool
  | .vint _ | .vint8 _ | .vint16 _ | .vint32 _ | .vint64 _ => false
  | .vuint _ | .vuint8 _ | .vuint16 _ | .vuint32 _ | .vuint64 _ => false
  | .vfloat64 _ => false
  | .vstr _ => false
  | .vbool _ => false
  | _ => true

/-- Source `Incr` (helper file): bump the six supported integer kinds
(`int`, `int32`, `int64`, `uint`, `uint32`, `uint64`), wrapping as the Go
machine type does; every other dynamic type takes the `default` branch and
fails with the literal error message. -/
def Incr : GoVal → Except String GoVal
  | .vint n => .ok (.vint (wrapI 64 (n + 1)))
  | .vint32 n => .ok (.vint32 (wrapI 32 (n + 1)))
  | .vint64 n => .ok (.vint64 (wrapI 64 (n + 1)))
  | .vuint n => .ok (.vuint ((n + 1) % 2 ^ 64))
  | .vuint32 n => .ok (.vuint32 ((n + 1) % 2 ^ 32))
  | .vuint64 n => .ok (.vuint64 ((n + 1) % 2 ^ 64))
  | _ => .error "item value is not int-type"

/-- Source `Decr` (helper file): decrement the six supported integer kinds;
on the unsigned kinds a current value of `0` fails with the literal
underflow message instead of wrapping; every other dynamic type fails with
the type-mismatch message. -/
def Decr : GoVal → Except String GoVal
  | .vint n => .ok (.vint (wrapI 64 (n - 1)))
  | .vint32 n => .ok (.vint32 (wrapI 32 (n - 1)))
  | .vint64 n => .ok (.vint64 (wrapI 64 (n - 1)))
  | .vuint n =>
      if n > 0 then .ok (.vuint (n - 1)) else .error "item value is less than 0"
  | .vuint32 n =>
      if n > 0 then .ok (.vuint32 (n - 1)) else .error "item value is less than 0"
  | .vuint64 n =>
      if n > 0 then .ok (.vuint64 (n - 1)) else .error "item value is less than 0"
  | _ => .error "item value is not int-type"

/-- Alias for the helper `Incr`, usable inside `FileCache.Incr` (where the
bare name refers to the method being defined). -/
def valIncr : GoVal → Except String GoVal := Incr

/-- Alias for the helper `Decr`, usable inside `FileCache.Decr`. -/
def valDecr : GoVal → Except String GoVal := Decr

/-- The integer-family scalars of the counter operations: exactly the six
kinds the `switch` statements of the source `Incr`/`Decr` accept (`int`,
`int32`, `int64`, `uint`, `uint32`, `uint64`).  The 8- and 16-bit kinds fall
to the `default` branch of both helpers and are rejected like every other
non-integer value. -/
def intFamily : GoVal → Bool
  | .vint _ | .vint32 _ | .vint64 _ => true
  | .vuint _ | .vuint32 _ | .vuint64 _ => true
  | _ => false

mutual

/-- Rendering of a value by `fmt.Sprintf("%v", ·)`: decimal for the numeric
kinds, `true`/`false`, strings verbatim, `<nil>` for the nil interface.
Maps render as `map[k:v ...]`; Go's `fmt` sorts the keys, which is not
reproduced here because no claim ever renders a map (map-valued payloads are
re-parsed, never stringified).  `vblob` rendering (the decimal byte list of
the JSON text) is likewise unreachable and left as the empty string. -/
def goFmt : GoVal → String
  | .vint n | .vint8 n | .vint16 n | .vint32 n | .vint64 n => toString n
  | .vuint n | .vuint8 n | .vuint16 n | .vuint32 n | .vuint64 n => toString n
  | .vfloat64 n => toString n
  | .vbool b => cond b "true" "false"
  | .vstr s => s
  | .vnull => "<nil>"
  | .vmap m => "map[" ++ goFmtEntries m ++ "]"
  | .vblob _ => ""

/-- Space-separated `k:v` rendering of map entries for `goFmt`. -/
def goFmtEntries : List (String × GoVal) → String
  | [] => ""
  | [(k, v)] => k ++ ":" ++ goFmt v
  | (k, v) :: e :: r => k ++ ":" ++ goFmt v ++ " " ++ goFmtEntries (e :: r)

end

/-- Source `ToStr` (helper file), at its default one-argument call sites:
`strconv.FormatBool`, `strconv.Format{Int,Uint}` base 10,
`strconv.FormatFloat 'f' -1` (plain decimal digits for the integral floats
this development constructs), strings verbatim, and `fmt.Sprintf("%v", ·)`
for everything else. -/
def ToStr : GoVal → String
  | .vbool b => cond b "true" "false"
  | .vfloat64 n => toString n
  | .vint n | .vint8 n | .vint16 n | .vint32 n | .vint64 n => toString n
  | .vuint n | .vuint8 n | .vuint16 n | .vuint32 n | .vuint64 n => toString n
  | .vstr s => s
  | v => goFmt v

mutual

/-- Image of a value under `json.Marshal` followed by `json.Unmarshal` into
`interface{}`: every numeric scalar comes back as a `float64`, strings,
booleans and `null` survive, and maps are rebuilt entrywise.  A nested
`vblob` would marshal to its base64 text; `Set` never nests byte values, so
that branch is unreachable and maps to `vnull`. -/
def jsonNorm : GoVal → GoVal
  | .vint n | .vint8 n | .vint16 n | .vint32 n | .vint64 n => .vfloat64 n
  | .vuint n | .vuint8 n | .vuint16 n | .vuint32 n | .vuint64 n => .vfloat64 (Int.ofNat n)
  | .vfloat64 n => .vfloat64 n
  | .vbool b => .vbool b
  | .vstr s => .vstr s
  | .vnull => .vnull
  | .vmap m => .vmap (jsonNormEntries m)
  | .vblob _ => .vnull

/-- Entrywise `jsonNorm` over the entries of a map. -/
def jsonNormEntries : List (String × GoVal) → List (String × GoVal)
  | [] => []
  | (k, v) :: r => (k, jsonNorm v) :: jsonNormEntries r

end

/-- Source `Item` (file.go): the on-disk envelope, a value plus its creation
time (Unix seconds) and TTL (seconds; `0` never expires). -/
structure Item where
  Val : GoVal
  Created : Int
  Expire : Int

/-- Source `Item.hasExpired`: `item.Expire > 0 && (now - item.Created) >=
item.Expire`, with `now` the value of `time.Now().Unix()` at the call. -/
def Item.hasExpired (item : Item) (now : Int) : Bool :=
  decide (item.Expire > 0) && decide (now - item.Created ≥ item.Expire)

/-- Contents of one leaf file of the store: either a gob encoding of an
`Item` (`EncodeGob`/`DecodeGob` are mutually inverse, so the item itself is
stored), or bytes on which `DecodeGob` fails. -/
inductive FileData : Type where
  | good (item : Item)
  | corrupt

/-- The file tree owned by the store: an association of path strings to file
contents.  Paths are unique in every state this development constructs. -/
abbrev FS : Type := List (String × FileData)

/-- Contents of the file at path `p`, if present (`os.ReadFile` succeeds). -/
def fsGet (fs : FS) (p : String) : Option FileData :=
  match fs with
  | [] => none
  | (q, d) :: r => if q = p then some d else fsGet r p

/-- Effect of `os.WriteFile` at path `p` (with `os.MkdirAll` for the parent
directories): create or overwrite the file. -/
def fsWrite (fs : FS) (p : String) (d : FileData) : FS :=
  (p, d) :: fs.filter (fun e => e.1 ≠ p)

/-- Effect of `os.Remove` at path `p`: the file is gone. -/
def fsErase (fs : FS) (p : String) : FS :=
  fs.filter (fun e => e.1 ≠ p)

theorem fsGet_fsWrite_self (fs : FS) (p : String) (d : FileData) :
    fsGet (fsWrite fs p d) p = some d := by
  simp [fsWrite, fsGet]

/-- Filtering by a predicate on the path removes exactly the lookups whose
path the predicate rejects. -/
theorem fsGet_filterKey_false (keep : String → Bool) (fs : FS) (p : String)
    (h : keep p = false) :
    fsGet (fs.filter (fun e => keep e.1)) p = none := by
  induction fs with
  | nil => rfl
  | cons e r ih =>
    obtain ⟨q, d⟩ := e
    by_cases hk : keep q
    · have hqp : q ≠ p := by intro hEq; rw [hEq, h] at hk; exact Bool.noConfusion hk
      simpa [List.filter, hk, fsGet, hqp] using ih
    · simpa [List.filter, hk] using ih

/-- Filtering by a predicate on the path leaves lookups of accepted paths
unchanged. -/
theorem fsGet_filterKey_true (keep : String → Bool) (fs : FS) (p : String)
    (h : keep p = true) :
    fsGet (fs.filter (fun e => keep e.1)) p = fsGet fs p := by
  induction fs with
  | nil => rfl
  | cons e r ih =>
    obtain ⟨q, d⟩ := e
    by_cases hqp : q = p
    · subst hqp
      simp [List.filter, h, fsGet]
    · by_cases hk : keep q
      · simpa [List.filter, hk, fsGet, hqp] using ih
      · simpa [List.filter, hk, fsGet, hqp] using ih

theorem fsGet_fsWrite_ne (fs : FS) (p q : String) (d : FileData)
    (h : q ≠ p) : fsGet (fsWrite fs p d) q = fsGet fs q := by
  have hp : (fun s => decide (s ≠ p)) q = true := by simpa using h
  have h2 := fsGet_filterKey_true (fun s => decide (s ≠ p)) fs q hp
  simpa [fsWrite, fsGet, Ne.symm h] using h2

theorem fsGet_fsErase_self (fs : FS) (p : String) :
    fsGet (fsErase fs p) p = none := by
  have hp : (fun s => decide (s ≠ p)) p = false := by simp
  simpa [fsErase] using fsGet_filterKey_false (fun s => decide (s ≠ p)) fs p hp

theorem fsGet_fsErase_ne (fs : FS) (p q : String) (h : q ≠ p) :
    fsGet (fsErase fs p) q = fsGet fs q := by
  have hp : (fun s => decide (s ≠ p)) q = true := by simpa using h
  simpa [fsErase] using fsGet_filterKey_true (fun s => decide (s ≠ p)) fs q hp

/-! ## MD5 (crypto/md5), hex encoding, and the path sharder -/

/-- The modulus of 32-bit words. -/
def m32 : Nat := 4294967296

/-- Left-rotation of a 32-bit word. -/
def rotl32 (x n : Nat) : Nat :=
  (x * 2 ^ n + x / 2 ^ (32 - n)) % m32

/-- The 64 MD5 round constants (RFC 1321, `floor(2^32 * abs(sin(i+1)))`). -/
def mdK : List Nat :=
  [0xd76aa478, 0xe8c7b756, 0x242070db, 0xc1bdceee,
   0xf57c0faf, 0x4787c62a, 0xa8304613, 0xfd469501,
   0x698098d8, 0x8b44f7af, 0xffff5bb1, 0x895cd7be,
   0x6b901122, 0xfd987193, 0xa679438e, 0x49b40821,
   0xf61e2562, 0xc040b340, 0x265e5a51, 0xe9b6c7aa,
   0xd62f105d, 0x02441453, 0xd8a1e681, 0xe7d3fbc8,
   0x21e1cde6, 0xc33707d6, 0xf4d50d87, 0x455a14ed,
   0xa9e3e905, 0xfcefa3f8, 0x676f02d9, 0x8d2a4c8a,
   0xfffa3942, 0x8771f681, 0x6d9d6122, 0xfde5380c,
   0xa4beea44, 0x4bdecfa9, 0xf6bb4b60, 0xbebfbc70,
   0x289b7ec6, 0xeaa127fa, 0xd4ef3085, 0x04881d05,
   0xd9d4d039, 0xe6db99e5, 0x1fa27cf8, 0xc4ac5665,
   0xf4292244, 0x432aff97, 0xab9423a7, 0xfc93a039,
   0x655b59c3, 0x8f0ccc92, 0xffeff47d, 0x85845dd1,
   0x6fa87e4f, 0xfe2ce6e0, 0xa3014314, 0x4e0811a1,
   0xf7537e82, 0xbd3af235, 0x2ad7d2bb, 0xeb86d391]

/-- The 64 MD5 per-round shift amounts. -/
def mdS : List Nat :=
  [7, 12, 17, 22, 7, 12, 17, 22, 7, 12, 17, 22, 7, 12, 17, 22,
   5, 9, 14, 20, 5, 9, 14, 20, 5, 9, 14, 20, 5, 9, 14, 20,
   4, 11, 16, 23, 4, 11, 16, 23, 4, 11, 16, 23, 4, 11, 16, 23,
   6, 10, 15, 21, 6, 10, 15, 21, 6, 10, 15, 21, 6, 10, 15, 21]

/-- The running MD5 state (four 32-bit words). -/
structure MDState where
  a : Nat
  b : Nat
  c : Nat
  d : Nat

/-- The MD5 initialization vector. -/
def mdIV : MDState := ⟨0x67452301, 0xefcdab89, 0x98badcfe, 0x10325476⟩

/-- One MD5 round: mix the message word selected for round `i` into the
state.  `M` maps a word index `0..15` to the corresponding little-endian
word of the current 64-byte block. -/
def mdRound (M : Nat → Nat) (st : MDState) (i : Nat) : MDState :=
  let f :=
    if i < 16 then (st.b &&& st.c) ||| ((st.b ^^^ (m32 - 1)) &&& st.d)
    else if i < 32 then (st.d &&& st.b) ||| ((st.d ^^^ (m32 - 1)) &&& st.c)
    else if i < 48 then st.b ^^^ st.c ^^^ st.d
    else st.c ^^^ (st.b ||| (st.d ^^^ (m32 - 1)))
  let g :=
    if i < 16 then i
    else if i < 32 then (5 * i + 1) % 16
    else if i < 48 then (3 * i + 5) % 16
    else (7 * i) % 16
  let t := (f + st.a + mdK.getD i 0 + M g) % m32
  ⟨st.d, (st.b + rotl32 t (mdS.getD i 0)) % m32, st.b, st.c⟩

/-- Little-endian word `j` (of 16) of a 64-byte block. -/
def blockWord (blk : List Nat) (j : Nat) : Nat :=
  blk.getD (4 * j) 0 + 256 * blk.getD (4 * j + 1) 0 +
    65536 * blk.getD (4 * j + 2) 0 + 16777216 * blk.getD (4 * j + 3) 0

/-- Process one 64-byte block: 64 rounds, then add the block result onto the
incoming state, word-wise modulo `2^32`. -/
def mdBlock (st : MDState) (blk : List Nat) : MDState :=
  let e := (List.range 64).foldl (mdRound (blockWord blk)) st
  ⟨(st.a + e.a) % m32, (st.b + e.b) % m32, (st.c + e.c) % m32, (st.d + e.d) % m32⟩

/-- MD5 padding: append `0x80`, zero bytes up to 56 mod 64, then the
original bit length as a 64-bit little-endian quantity. -/
def mdPad (msg : List Nat) : List Nat :=
  let L := msg.length
  let zeros := (119 - L % 64) % 64
  msg ++ 0x80 :: List.replicate zeros 0 ++
    (List.range 8).map (fun i => 8 * L / 2 ^ (8 * i) % 256)

/-- The 64-byte block `i` of a padded byte list. -/
def mdBlockAt (p : List Nat) (i : Nat) : List Nat :=
  (p.drop (64 * i)).take 64

/-- The four bytes of a 32-bit word, little-endian. -/
def wordBytes (w : Nat) : List Nat :=
  [w % 256, w / 256 % 256, w / 65536 % 256, w / 16777216 % 256]

/-- `md5.Sum` over a byte message: the 16-byte digest. -/
def md5Bytes (msg : List Nat) : List Nat :=
  let p := mdPad msg
  let st := (List.range (p.length / 64)).foldl (fun st i => mdBlock st (mdBlockAt p i)) mdIV
  wordBytes st.a ++ wordBytes st.b ++ wordBytes st.c ++ wordBytes st.d

/-- The lowercase hex digit of a nibble. -/
def hexDigit (n : Nat) : Char :=
  "0123456789abcdef".data.getD n '0'

/-- `hex.EncodeToString` of one byte: two lowercase hex digits. -/
def byteHex (b : Nat) : List Char :=
  [hexDigit (b / 16), hexDigit (b % 16)]

/-- UTF-8 encoding of one character (Go strings are UTF-8 byte sequences). -/
def utf8Bytes (c : Char) : List Nat :=
  let n := c.toNat
  if n < 128 then [n]
  else if n < 2048 then [192 + n / 64, 128 + n % 64]
  else if n < 65536 then [224 + n / 4096, 128 + n / 64 % 64, 128 + n % 64]
  else [240 + n / 262144, 128 + n / 4096 % 64, 128 + n / 64 % 64, 128 + n % 64]

/-- The bytes of a Go string (UTF-8). -/
def strBytes (s : List Char) : List Nat :=
  (s.map utf8Bytes).flatten

/-- `hex.EncodeToString(md5.Sum(key))` over the characters of the key: the
32 lowercase hex characters of the digest. -/
def md5HexChars (key : List Char) : List Char :=
  ((md5Bytes (strBytes key)).map byteHex).flatten

theorem md5Bytes_length (msg : List Nat) : (md5Bytes msg).length = 16 := by
  simp [md5Bytes, wordBytes]

theorem md5HexChars_length (key : List Char) : (md5HexChars key).length = 32 := by
  have h2 : ∀ l : List Nat, ((l.map byteHex).flatten).length = 2 * l.length := by
    intro l
    induction l with
    | nil => rfl
    | cons x r ih => simp [byteHex, ih]; omega
  rw [md5HexChars, h2, md5Bytes_length]

/-- Sanity check of the MD5 embedding against the RFC 1321 test vector for
the empty message. -/
theorem md5_vector_empty :
    String.mk (md5HexChars []) = "d41d8cd98f00b204e9800998ecf8427e" := by rfl

/-- Sanity check of the MD5 embedding against the RFC 1321 test vector for
the message `abc`. -/
theorem md5_vector_abc :
    String.mk (md5HexChars ['a', 'b', 'c']) = "900150983cd24fb0d6963f7d28e17f72" := by
  rfl

/-- Source `strings.Split(key, "_")` (single-character separator): the
maximal `'_'`-free segments of the key, in order; always nonempty, and of
length at least 2 exactly when the key contains `'_'`. -/
def splitUnderscore : List Char → List (List Char)
  | [] => [[]]
  | c :: r =>
      if c = '_' then [] :: splitUnderscore r
      else
        match splitUnderscore r with
        | [] => [[c]]
        | l :: ls => (c :: l) :: ls

/-- Separator collapsing after a known previous character: a `'/'` directly
following a `'/'` is dropped. -/
def collapseDupAfter (prev : Char) : List Char → List Char
  | [] => []
  | b :: r =>
      if prev = '/' ∧ b = '/' then collapseDupAfter prev r
      else b :: collapseDupAfter b r

/-- Start of the separator-collapsing pass of `filepath.Clean`. -/
def collapseDup : List Char → List Char
  | [] => []
  | a :: r => a :: collapseDupAfter a r

/-- Source `filepath.Join`: skip leading empty elements, join the rest with
`'/'`, and `Clean` the result.  The inputs this program joins contain no
`"."`/`".."` segments and never end in a separator, so on them `Clean` is
exactly the collapsing of repeated separators. -/
def goJoin (parts : List (List Char)) : List Char :=
  match parts.dropWhile List.isEmpty with
  | [] => []
  | ps => collapseDup (List.intercalate ['/'] ps)

/-- Source `FileCache` (file.go): the root path and GC interval (the mutex
guards only initialization and is immaterial to a single-caller model). -/
structure FileCache where
  rootPath : String
  interval : Int

/-- Source `FileCache.filepath`, on character lists: split the key on `'_'`;
with at least two segments the first becomes `"/" ++ keys[0]` appended to
the root; then `filepath.Join(root ++ path, hash[0], hash[1], hash)` with
`hash` the hex MD5 of the whole key. -/
def fcPath (root key : List Char) : List Char :=
  goJoin [root ++
      (if (splitUnderscore key).length ≥ 2
       then '/' :: (splitUnderscore key).headD [] else []),
    (md5HexChars key).take 1, ((md5HexChars key).drop 1).take 1, md5HexChars key]

/-- Source `FileCache.filepath` on strings. -/
def FileCache.filepath (c : FileCache) (key : String) : String :=
  String.mk (fcPath c.rootPath.data key.data)

/-! ## File store operations -/

/-- Errors surfaced by the store: filesystem errors (`os.ReadFile` /
`os.Remove` on a missing file), gob decode failures, and the literal
`errors.New` messages of file.go. -/
inductive GErr : Type where
  | io
  | decode
  | msg (s : String)
  deriving DecidableEq, Repr

/-- Outcome wrapper distinguishing a normal Go return from a runtime panic
(failed type assertion, assignment to a nil map). -/
inductive GoOut (α : Type) : Type where
  | ok (a : α)
  | panic

/-- The value actually placed in the envelope by `Set`: a non-scalar is
replaced by `json.Marshal` of itself (a byte blob), a scalar is stored
as-is. -/
def goStore (val : GoVal) : GoVal :=
  if isNotNumber val then .vblob (jsonNorm val) else val

/-- Source `FileCache.Set`: marshal non-scalars, wrap into an `Item` whose
`Created` is the current Unix time, and write it at `filepath(key)`.  The
gob-encode and file-write error paths cannot fire in this pure model, so
`Set` always succeeds. -/
def FileCache.Set (c : FileCache) (fs : FS) (now : Int) (key : String)
    (val : GoVal) (expire : Int) : FS :=
  fsWrite fs (c.filepath key) (.good ⟨goStore val, now, expire⟩)

/-- Source `FileCache.read`: read the file at `filepath(key)` and gob-decode
it. -/
def FileCache.read (c : FileCache) (fs : FS) (key : String) : Except GErr Item :=
  match fsGet fs (c.filepath key) with
  | none => .error .io
  | some .corrupt => .error .decode
  | some (.good item) => .ok item

/-- The payload transformation of `Get` on a non-expired item value: a
non-scalar must be the byte blob written by `Set` (the bare type assertion
`item.Val.([]byte)` panics otherwise) and is re-parsed by `json.Unmarshal`
(a `null` blob re-parses to the nil interface); a scalar is rendered by
`fmt.Sprintf("%v", ·)`. -/
def getPayload (v : GoVal) : GoOut (Option GoVal) :=
  if isNotNumber v then
    match v with
    | .vblob .vnull => .ok none
    | .vblob w => .ok (some w)
    | _ => .panic
  else
    .ok (some (.vstr (goFmt v)))

/-- Source `FileCache.Get`: read and decode; on an expired item remove the
file and return `nil, err` — where `err` is the `nil` error left over from
the successful `read` — otherwise return the transformed payload.  The
result triple is (resulting tree, returned value, returned error). -/
def FileCache.Get (c : FileCache) (fs : FS) (now : Int) (key : String) :
    GoOut (FS × Option GoVal × Option GErr) :=
  match FileCache.read c fs key with
  | .error e => .ok (fs, none, some e)
  | .ok item =>
      if item.hasExpired now then .ok (fsErase fs (c.filepath key), none, none)
      else
        match getPayload item.Val with
        | .panic => .panic
        | .ok v => .ok (fs, v, none)

/-- Source `FileCache.Del`: `os.Remove`, which fails when the file is
absent. -/
def FileCache.Del (c : FileCache) (fs : FS) (key : String) : FS × Option GErr :=
  match fsGet fs (c.filepath key) with
  | none => (fs, some .io)
  | some _ => (fsErase fs (c.filepath key), none)

/-- Source `FileCache.Incr`: read, bump via the helper `Incr`, and write
back with `Set(key, val, item.Expire)` — same TTL, fresh `Created`. -/
def FileCache.Incr (c : FileCache) (fs : FS) (now : Int) (key : String) :
    FS × Option GErr :=
  match FileCache.read c fs key with
  | .error e => (fs, some e)
  | .ok item =>
      match valIncr item.Val with
      | .error s => (fs, some (.msg s))
      | .ok v => (FileCache.Set c fs now key v item.Expire, none)

/-- Source `FileCache.Decr`: read, decrement via the helper `Decr`, and
write back with `Set(key, val, item.Expire)`. -/
def FileCache.Decr (c : FileCache) (fs : FS) (now : Int) (key : String) :
    FS × Option GErr :=
  match FileCache.read c fs key with
  | .error e => (fs, some e)
  | .ok item =>
      match valDecr item.Val with
      | .error s => (fs, some (.msg s))
      | .ok v => (FileCache.Set c fs now key v item.Expire, none)

/-- Source `FileCache.Exists` (via `IsExist`): a pure path-existence check,
with no look at expiry. -/
def FileCache.Exists (c : FileCache) (fs : FS) (key : String) : Bool :=
  (fsGet fs (c.filepath key)).isSome

/-- Source `FileCache.Flush`: `os.RemoveAll` of the whole root. -/
def FileCache.Flush (_ : FileCache) (_ : FS) : FS := []

/-- Path `p` lies in the subtree rooted at `dir` (it is the directory itself
or has `dir ++ "/"` as a prefix) — the set of paths `os.RemoveAll(dir)`
deletes. -/
def inSubtree (dir p : String) : Bool :=
  p = dir ∨ dir.data ++ ['/'] <+: p.data

/-- Source `FileCache.Clear`: a key without `'_'` is treated as a bucket
name and its whole subtree `rootPath + "/" + key` is removed
(`os.RemoveAll`, which succeeds even when nothing is there); any other key
has its single file removed with `os.Remove`, which fails when absent. -/
def FileCache.Clear (c : FileCache) (fs : FS) (key : String) : FS × Option GErr :=
  if ¬ key.data.contains '_' then
    (fs.filter (fun e => !inSubtree (c.rootPath ++ "/" ++ key) e.1), none)
  else
    match fsGet fs (c.filepath key) with
    | none => (fs, some .io)
    | some _ => (fsErase fs (c.filepath key), none)

/-- Source `FileCache.Expire`: no-op `false` when the path does not exist;
otherwise `Get` the current value (note: this applies `Get`'s payload
transformation, and a `Get` error makes `Expire` return `false`) and re-Set
it with the new TTL, which is `int64(expire)` — the raw nanosecond count of
the `time.Duration` argument. -/
def FileCache.Expire (c : FileCache) (fs : FS) (now : Int) (key : String)
    (expire : Int) : GoOut (FS × Bool) :=
  if ¬ FileCache.Exists c fs key then .ok (fs, false)
  else
    match FileCache.Get c fs now key with
    | .panic => .panic
    | .ok (fs1, data, none) =>
        .ok (FileCache.Set c fs1 now key (data.getD .vnull) expire, true)
    | .ok (fs1, _, some _) => .ok (fs1, false)

/-! ## Hash-emulation operations -/

/-- Go map assignment `m[k] = v` on a `map[string]string`: overwrite the
existing binding or add one. -/
def assocSet : List (String × String) → String → String → List (String × String)
  | [], k, v => [(k, v)]
  | (q, w) :: r, k, v => if q = k then (k, v) :: r else (q, w) :: assocSet r k v

/-- Go map lookup on a `map[string]string` with unique keys. -/
def assocFind (k : String) : List (String × String) → Option String
  | [] => none
  | (q, v) :: r => if q = k then some v else assocFind k r

/-- A `map[string]string` variable as the `interface{}` handed to `Set` by
the hash operations: a nil map is the nil interface at marshalling time
(`json.Marshal` of a nil map is `null`), a non-nil one is a map value with
string entries. -/
def strMapVal : Option (List (String × String)) → GoVal
  | none => .vnull
  | some d => .vmap (d.map (fun e => (e.1, .vstr e.2)))

/-- Source `FileCache.HGetAll`: missing path gives the `is empty` error; a
`Get` error gives the `Get failed` error; a nil payload gives a nil map with
nil error; any other payload goes through the bare type assertion
`newData.(map[string]interface{})` — a panic on every non-map payload — and
is stringified entrywise with `ToStr`. -/
def FileCache.HGetAll (c : FileCache) (fs : FS) (now : Int) (key : String) :
    GoOut (FS × Option (List (String × String)) × Option GErr) :=
  if ¬ FileCache.Exists c fs key then .ok (fs, none, some (.msg "is empty"))
  else
    match FileCache.Get c fs now key with
    | .panic => .panic
    | .ok (fs1, _, some _) => .ok (fs1, none, some (.msg "Get failed"))
    | .ok (fs1, none, none) => .ok (fs1, none, none)
    | .ok (fs1, some v, none) =>
        match v with
        | .vmap m => .ok (fs1, some (m.map (fun e => (e.1, ToStr e.2))), none)
        | _ => .panic

/-- Source `FileCache.HGet`: missing path or missing field (or an `HGetAll`
error) give the `does not exist` error; otherwise the field's value. -/
def FileCache.HGet (c : FileCache) (fs : FS) (now : Int) (key field : String) :
    GoOut (FS × String × Option GErr) :=
  if ¬ FileCache.Exists c fs key then .ok (fs, "", some (.msg "does not exist"))
  else
    match FileCache.HGetAll c fs now key with
    | .panic => .panic
    | .ok (fs1, data, none) =>
        match assocFind field (data.getD []) with
        | some v => .ok (fs1, v, none)
        | none => .ok (fs1, "", some (.msg "does not exist"))
    | .ok (fs1, _, some _) => .ok (fs1, "", some (.msg "does not exist"))

/-- Source `FileCache.HMGet`: missing path gives the `does not exist` error;
an `HGetAll` error is passed through (with a nil result map); otherwise the
entries whose field is listed in `fields` (`StringInArray`). -/
def FileCache.HMGet (c : FileCache) (fs : FS) (now : Int) (key : String)
    (fields : List String) :
    GoOut (FS × Option (List (String × String)) × Option GErr) :=
  if ¬ FileCache.Exists c fs key then .ok (fs, none, some (.msg "does not exist"))
  else
    match FileCache.HGetAll c fs now key with
    | .panic => .panic
    | .ok (fs1, _, some e) => .ok (fs1, none, some e)
    | .ok (fs1, data, none) =>
        .ok (fs1, some ((data.getD []).filter (fun e => fields.contains e.1)), none)

/-- Source `FileCache.HSet`: a missing path is a silent no-op `(false,
nil)`.  On an `HGetAll` error everything is skipped and the result is
`(true, nil)`.  Otherwise: a nil `newData` skips the merge; a non-map
`newData` returns the `data must be map` error; a map is merged entry by
entry with `data[k] = ToStr(v)` — a panic when `data` is the nil map and the
merge is nonempty — and the merged map is written back with
`Set(key, data, 0)` (whose error is discarded). -/
def FileCache.HSet (c : FileCache) (fs : FS) (now : Int) (key : String)
    (newData : GoVal) : GoOut (FS × Bool × Option GErr) :=
  if ¬ FileCache.Exists c fs key then .ok (fs, false, none)
  else
    match FileCache.HGetAll c fs now key with
    | .panic => .panic
    | .ok (fs1, _, some _) => .ok (fs1, true, none)
    | .ok (fs1, data, none) =>
        match newData with
        | .vnull => .ok (FileCache.Set c fs1 now key (strMapVal data) 0, true, none)
        | .vmap m =>
            match data with
            | some d =>
                let merged := m.foldl (fun acc e => assocSet acc e.1 (ToStr e.2)) d
                .ok (FileCache.Set c fs1 now key (strMapVal (some merged)) 0, true, none)
            | none =>
                match m with
                | [] => .ok (FileCache.Set c fs1 now key (strMapVal none) 0, true, none)
                | _ => .panic
        | _ => .ok (fs1, false, some (.msg "data must be map"))

/-- Source `FileCache.HDel`: a missing path is a silent no-op; an `HGetAll`
error is swallowed (`nil` returned); otherwise `delete(data, field)` (a
no-op on a nil map) and a wholesale `Set(key, data, 0)` write-back. -/
def FileCache.HDel (c : FileCache) (fs : FS) (now : Int) (key field : String) :
    GoOut (FS × Option GErr) :=
  if ¬ FileCache.Exists c fs key then .ok (fs, none)
  else
    match FileCache.HGetAll c fs now key with
    | .panic => .panic
    | .ok (fs1, data, none) =>
        let d2 := data.map (fun d => d.filter (fun e => e.1 ≠ field))
        .ok (FileCache.Set c fs1 now key (strMapVal d2) 0, none)
    | .ok (fs1, _, some _) => .ok (fs1, none)

/-! ## The Reaper sweep -/

/-- Source `FileCache.startGC` walk body, over the files of the store in
walk order (directories are skipped by the `fi.IsDir()` guard; the
association list order stands in for `filepath.Walk`'s lexical order).
Each file is read and gob-decoded; a decode failure aborts the walk at that
point — every file after it is left unvisited — and is reported; an expired
item has its file removed; everything else is left in place. -/
def gcSweep (now : Int) : FS → FS × Option GErr
  | [] => ([], none)
  | (p, .corrupt) :: rest => ((p, .corrupt) :: rest, some .decode)
  | (p, .good item) :: rest =>
      let s := gcSweep now rest
      if item.hasExpired now then s
      else ((p, .good item) :: s.1, s.2)

/-- Source `FileCache.startGC`: an interval below 1 disables the sweep
entirely; otherwise the whole tree is swept once (the `time.AfterFunc`
rescheduling is real-time behavior outside this state model). -/
def FileCache.startGC (c : FileCache) (fs : FS) (now : Int) : FS × Option GErr :=
  if c.interval < 1 then (fs, none)
  else gcSweep now fs

/-! ## Record codec (struct flattening for `HMSet`) -/

/-- Left-padding with zeros to width `w`, as Go's fixed-width time verbs
produce. -/
def padNum (w n : Nat) : String :=
  let s := toString n
  String.mk (List.replicate (w - s.length) '0') ++ s

/-- A `time.Time` value: calendar fields, nanoseconds, the zone offset in
seconds east of UTC, and the zone abbreviation (non-empty for the times this
development models, and with no monotonic-clock reading). -/
structure GoTime where
  year : Nat
  month : Nat
  day : Nat
  hour : Nat
  minute : Nat
  second : Nat
  nsec : Nat
  offSec : Int
  zone : String

/-- The `"2006-01-02 15:04:05"` portion of Go's default time rendering. -/
def GoTime.ymdhms (t : GoTime) : String :=
  padNum 4 t.year ++ "-" ++ padNum 2 t.month ++ "-" ++ padNum 2 t.day ++ " " ++
    padNum 2 t.hour ++ ":" ++ padNum 2 t.minute ++ ":" ++ padNum 2 t.second

/-- The `".999999999"` fractional portion: absent at zero, otherwise nine
zero-padded digits with trailing zeros trimmed. -/
def fracText (ns : Nat) : String :=
  if ns = 0 then ""
  else "." ++ String.mk (((padNum 9 ns).data.reverse.dropWhile (fun c => c = '0')).reverse)

/-- The `"-0700"` zone-offset portion. -/
def offsetText (offSec : Int) : String :=
  (if offSec < 0 then "-" else "+") ++
    padNum 2 (offSec.natAbs / 3600) ++ padNum 2 (offSec.natAbs % 3600 / 60)

/-- `time.Time.String()` — equivalently `fmt.Sprintf("%v", t)`, which is
what `ToStr` applied to a `reflect.Value` holding a `time.Time` produces:
the `Format("2006-01-02 15:04:05.999999999 -0700 MST")` rendering. -/
def GoTime.str (t : GoTime) : String :=
  t.ymdhms ++ fracText t.nsec ++ " " ++ offsetText t.offSec ++ " " ++ t.zone

/-- The value of one (non-anonymous) struct field as `setValue` inspects it:
a pointer field carries its `fmt` rendering (`ToStr` of the
`reflect.Value`); a `time.Time` field carries the time; any other
struct-kind field is opaque to the codec; a byte-slice field carries its
text (`conv.ByteToString`); every remaining kind is handed over as the raw
`value.Interface()`. -/
inductive FieldVal : Type where
  | ptrv (rendered : String)
  | timev (t : GoTime)
  | structv
  | bytes (s : String)
  | scalar (v : GoVal)

/-- A struct field as seen through `reflect`: either a normal field with its
resolved tag (the `cache` tag, with the documented `gorm`-tag fallback
already applied; `""` when neither resolves) or an embedded/anonymous field
with its own field list. -/
inductive GoField : Type where
  | plain (tag : String) (fv : FieldVal)
  | anon (sub : List GoField)

mutual

/-- Source `setValue` (helper file).  An anonymous field recurses one level,
collecting each child's `(tag, val)` and discarding grandchildren.  A tagged
field dispatches on kind: pointer — its `ToStr` rendering when non-empty;
struct — only `time.Time` is special-cased, rendered with `ToStr` (the
default `fmt` rendering of the time); slice — its text when non-empty;
anything else — the raw `value.Interface()`.  All remaining paths yield a
nil value. -/
def setValue : GoField → String × Option GoVal × Option (List (String × Option GoVal))
  | .anon sub => ("", none, some (setValueChildren sub))
  | .plain tag fv =>
      if tag = "" then ("", none, none)
      else
        match fv with
        | .ptrv r => if r ≠ "" then (tag, some (.vstr r), none) else (tag, none, none)
        | .timev t => (tag, some (.vstr t.str), none)
        | .structv => (tag, none, none)
        | .bytes s => if s ≠ "" then (tag, some (.vstr s), none) else (tag, none, none)
        | .scalar v => (tag, some v, none)

/-- The `(tag, val)` pairs an anonymous field contributes. -/
def setValueChildren : List GoField → List (String × Option GoVal)
  | [] => []
  | f :: r => ((setValue f).1, (setValue f).2.1) :: setValueChildren r

end

/-- Go map assignment `m[k] = v` on a `map[string]interface{}`. -/
def assocSetG : List (String × GoVal) → String → GoVal → List (String × GoVal)
  | [], k, v => [(k, v)]
  | (q, w) :: r, k, v => if q = k then (k, v) :: r else (q, w) :: assocSetG r k v

/-- One iteration of the flattening loop of `HMSet`: for an anonymous field
insert every child with a non-empty tag or non-nil value (a nil child value
is stored as the nil interface); for a normal field insert
`values[tag] = val` when `val` is neither nil nor the empty string. -/
def hmsetStep (values : List (String × GoVal)) (f : GoField) :
    List (String × GoVal) :=
  match setValue f with
  | (_, _, some child) =>
      child.foldl
        (fun vs e =>
          if e.1 ≠ "" ∨ e.2.isSome then assocSetG vs e.1 (e.2.getD .vnull) else vs)
        values
  | (tag, some (.vstr s), none) =>
      if s = "" then values else assocSetG values tag (.vstr s)
  | (tag, some v, none) => assocSetG values tag v
  | (_, none, none) => values

/-- The flattening loop of `HMSet`: walk the fields in declaration order,
accumulating with `hmsetStep`. -/
def hmsetValues (fields : List GoField) : List (String × GoVal) :=
  fields.foldl hmsetStep []

/-- Source `FileCache.HMSet`: flatten the tagged record and store the whole
mapping with `Set(key, values, 0)` (the reflective precondition checks on
the dynamic argument are meaningless for an argument already typed as a
field list; the empty-key check is kept). -/
def FileCache.HMSet (c : FileCache) (fs : FS) (now : Int) (key : String)
    (fields : List GoField) : FS × Option GErr :=
  if key = "" then (fs, some (.msg "parameter is empty"))
  else (FileCache.Set c fs now key (.vmap (hmsetValues fields)) 0, none)

/-! ## Helper lemmas about separators, splitting and prefixes -/

/-- No two adjacent characters are both `'/'`. -/
def noDupSlash : List Char → Bool
  | [] => true
  | [_] => true
  | a :: b :: r => !(a = '/' && b = '/') && noDupSlash (b :: r)

/-- Well-formed store root: nonempty, no repeated separator, no trailing
separator (true of every root `StartAndGC` produces). -/
def rootOK (root : String) : Bool :=
  !root.data.isEmpty && noDupSlash root.data && !(root.data.getLast? == some '/')

theorem noDupSlash_tail (a : Char) (l : List Char)
    (h : noDupSlash (a :: l) = true) : noDupSlash l = true := by
  cases l with
  | nil => rfl
  | cons b r => exact (Bool.and_eq_true_iff.mp h).2

theorem noDupSlash_of_not_mem (l : List Char) (h : '/' ∉ l) :
    noDupSlash l = true := by
  induction l with
  | nil => rfl
  | cons a r ih =>
    have ha : a ≠ '/' := fun hEq => h (hEq ▸ List.mem_cons_self a r)
    have hr : '/' ∉ r := fun hm => h (List.mem_cons_of_mem a hm)
    cases r with
    | nil => rfl
    | cons b s =>
      have hb := ih hr
      simp [noDupSlash, hb, ha]

theorem noDupSlash_append (xs ys : List Char)
    (hx : noDupSlash xs = true) (hy : noDupSlash ys = true)
    (hmid : xs.getLast? ≠ some '/' ∨ ys.head? ≠ some '/') :
    noDupSlash (xs ++ ys) = true := by
  induction xs with
  | nil => simpa using hy
  | cons a r ih =>
    cases r with
    | nil =>
      cases ys with
      | nil => simpa using hx
      | cons b s =>
        have hab : ¬(a = '/' ∧ b = '/') := by
          rcases hmid with hl | hr
          · intro hc; exact hl (by simp [hc.1])
          · intro hc; exact hr (by simp [hc.2])
        have hab2 : (decide (a = '/') && decide (b = '/')) = false := by
          rcases not_and_or.mp hab with h | h <;> simp [h]
        simp [noDupSlash, hy, hab2]
    | cons b s =>
      have h1 : ¬(a = '/' ∧ b = '/') := by
        intro hc
        have := (Bool.and_eq_true_iff.mp hx).1
        simp [hc.1, hc.2] at this
      have h2 : noDupSlash (b :: s) = true := (Bool.and_eq_true_iff.mp hx).2
      have h3 : (b :: s).getLast? ≠ some '/' ∨ ys.head? ≠ some '/' := by
        rcases hmid with hl | hr
        · left; simpa [List.getLast?] using hl
        · right; exact hr
      have h4 := ih h2 h3
      have h1b : (decide (a = '/') && decide (b = '/')) = false := by
        rcases not_and_or.mp h1 with h | h <;> simp [h]
      simpa [noDupSlash, h1b] using h4

theorem collapseDupAfter_eq (prev : Char) (l : List Char)
    (h : noDupSlash (prev :: l) = true) : collapseDupAfter prev l = l := by
  induction l generalizing prev with
  | nil => rfl
  | cons b r ih =>
    have hpb : ¬(prev = '/' ∧ b = '/') := by
      intro hc
      have := (Bool.and_eq_true_iff.mp h).1
      simp [hc.1, hc.2] at this
    have hr : noDupSlash (b :: r) = true := (Bool.and_eq_true_iff.mp h).2
    simp [collapseDupAfter, hpb, ih b hr]

theorem collapseDup_eq (l : List Char) (h : noDupSlash l = true) :
    collapseDup l = l := by
  cases l with
  | nil => rfl
  | cons a r => simp [collapseDup, collapseDupAfter_eq a r h]

theorem collapseDupAfter_extra (prev : Char) (xs ys : List Char)
    (h : noDupSlash (prev :: xs ++ '/' :: ys) = true) :
    collapseDupAfter prev (xs ++ '/' :: '/' :: ys) = xs ++ '/' :: ys := by
  induction xs generalizing prev with
  | nil =>
    have hp : prev ≠ '/' := by
      intro hc
      have := (Bool.and_eq_true_iff.mp h).1
      simp [hc] at this
    have hy : noDupSlash ('/' :: ys) = true := (Bool.and_eq_true_iff.mp h).2
    simp [collapseDupAfter, hp, collapseDupAfter_eq '/' ys hy]
  | cons a r ih =>
    have hpa : ¬(prev = '/' ∧ a = '/') := by
      intro hc
      have := (Bool.and_eq_true_iff.mp h).1
      simp [hc.1, hc.2] at this
    have ht : noDupSlash (a :: r ++ '/' :: ys) = true :=
      (Bool.and_eq_true_iff.mp h).2
    simp [collapseDupAfter, hpa, ih a ht]

theorem collapseDup_extra (xs ys : List Char)
    (h : noDupSlash (xs ++ '/' :: ys) = true) :
    collapseDup (xs ++ '/' :: '/' :: ys) = xs ++ '/' :: ys := by
  cases xs with
  | nil =>
    have hy : noDupSlash ('/' :: ys) = true := h
    simp [collapseDup, collapseDupAfter,
      collapseDupAfter_eq '/' ys hy]
  | cons a r => simp [collapseDup, collapseDupAfter_extra a r ys h]

theorem splitUnderscore_of_not_mem (l : List Char) (h : '_' ∉ l) :
    splitUnderscore l = [l] := by
  induction l with
  | nil => rfl
  | cons a r ih =>
    have ha : a ≠ '_' := fun hEq => h (hEq ▸ List.mem_cons_self a r)
    have hr : '_' ∉ r := fun hm => h (List.mem_cons_of_mem a hm)
    simp [splitUnderscore, ha, ih hr]

theorem splitUnderscore_append (s r : List Char) (h : '_' ∉ s) :
    splitUnderscore (s ++ '_' :: r) = s :: splitUnderscore r := by
  induction s with
  | nil => simp [splitUnderscore]
  | cons a t ih =>
    have ha : a ≠ '_' := fun hEq => h (hEq ▸ List.mem_cons_self a t)
    have ht : '_' ∉ t := fun hm => h (List.mem_cons_of_mem a hm)
    simp [splitUnderscore, ha, ih ht]

theorem getLast?_ne_of_forall (l : List Char) (c : Char)
    (h : ∀ ch ∈ l, ch ≠ c) : l.getLast? ≠ some c := by
  induction l with
  | nil => simp
  | cons a r ih =>
    cases r with
    | nil =>
      simpa [List.getLast?] using h a (List.mem_cons_self a [])
    | cons b s =>
      have := ih (fun ch hm => h ch (List.mem_cons_of_mem a hm))
      simpa [List.getLast?_cons_cons] using this

/-- Two `'/'`-free segments followed by a separator: a prefix relation
between them forces equality of the segments. -/
theorem seg_prefix_eq (s t r : List Char) (hs : '/' ∉ s) (ht : '/' ∉ t)
    (h : s ++ ['/'] <+: t ++ '/' :: r) : s = t := by
  induction s generalizing t with
  | nil =>
    cases t with
    | nil => rfl
    | cons b u =>
      rw [List.nil_append] at h
      have hb : '/' = b := (List.cons_prefix_cons.mp h).1
      exact absurd (hb ▸ List.mem_cons_self b u) ht
  | cons a s' ih =>
    cases t with
    | nil =>
      rw [List.nil_append] at h
      have ha : a = '/' := (List.cons_prefix_cons.mp h).1
      exact absurd (ha ▸ List.mem_cons_self a s') hs
    | cons b u =>
      have hab : a = b := (List.cons_prefix_cons.mp h).1
      have htail : s' ++ ['/'] <+: u ++ '/' :: r := (List.cons_prefix_cons.mp h).2
      have hs' : '/' ∉ s' := fun hm => hs (List.mem_cons_of_mem a hm)
      have hu : '/' ∉ u := fun hm => ht (List.mem_cons_of_mem b hm)
      rw [hab, ih u hs' hu htail]

theorem hexDigit_mem (n : Nat) : hexDigit n ∈ "0123456789abcdef".data := by
  rw [hexDigit, List.getD_eq_getElem?_getD]
  cases h : "0123456789abcdef".data[n]? with
  | none => decide
  | some a =>
    have := List.getElem?_mem h
    simpa [h] using this

theorem hexDigit_ne_slash (n : Nat) : hexDigit n ≠ '/' := by
  have := hexDigit_mem n
  intro hEq
  rw [hEq] at this
  exact absurd this (by decide)

theorem md5HexChars_ne_slash (key : List Char) :
    ∀ ch ∈ md5HexChars key, ch ≠ '/' := by
  intro ch hm
  rw [md5HexChars] at hm
  obtain ⟨l, hl, hch⟩ := List.mem_flatten.mp hm
  obtain ⟨b, _, hb⟩ := List.mem_map.mp hl
  rw [← hb] at hch
  simp only [byteHex, List.mem_cons, List.not_mem_nil, or_false] at hch
  rcases hch with h | h
  · exact h ▸ hexDigit_ne_slash (b / 16)
  · exact h ▸ hexDigit_ne_slash (b % 16)

/-- The join this store performs, on a first component that is nonempty,
separator-normal and without trailing separator: no cleaning happens. -/
theorem goJoin_shape (first : List Char) (c0 c1 : Char) (rest : List Char)
    (h1 : first ≠ []) (h2 : noDupSlash first = true)
    (h3 : first.getLast? ≠ some '/')
    (hc0 : c0 ≠ '/') (hc1 : c1 ≠ '/') (hrest : '/' ∉ rest) :
    goJoin [first, [c0], [c1], c0 :: c1 :: rest] =
      first ++ '/' :: c0 :: '/' :: c1 :: '/' :: c0 :: c1 :: rest := by
  have hfe : first.isEmpty = false := by
    cases first with
    | nil => exact absurd rfl h1
    | cons a r => rfl
  have hinter :
      List.intercalate ['/'] [first, [c0], [c1], c0 :: c1 :: rest] =
        first ++ '/' :: c0 :: '/' :: c1 :: '/' :: c0 :: c1 :: rest := by
    simp [List.intercalate, List.intersperse]
  have hnd : noDupSlash (first ++ '/' :: c0 :: '/' :: c1 :: '/' :: c0 :: c1 :: rest) = true := by
    apply noDupSlash_append first _ h2 _ (Or.inl h3)
    have t1 : noDupSlash (c1 :: rest) = true := by
      apply noDupSlash_of_not_mem
      intro hm
      rcases List.mem_cons.mp hm with h | hm2
      · exact hc1 h.symm
      · exact hrest hm2
    simp [noDupSlash, hc0, hc1, t1]
  rw [goJoin]
  simp only [List.dropWhile_cons, hfe, if_false, Bool.false_eq_true]
  rw [hinter, collapseDup_eq _ hnd]

/-- The join on a first component with a trailing separator (the empty
bucket): `Clean` collapses the doubled separator, yielding exactly the
unbucketed layout. -/
theorem goJoin_shape_slash (root : List Char) (c0 c1 : Char) (rest : List Char)
    (h2 : noDupSlash root = true) (h3 : root.getLast? ≠ some '/')
    (hc0 : c0 ≠ '/') (hc1 : c1 ≠ '/') (hrest : '/' ∉ rest) :
    goJoin [root ++ ['/'], [c0], [c1], c0 :: c1 :: rest] =
      root ++ '/' :: c0 :: '/' :: c1 :: '/' :: c0 :: c1 :: rest := by
  have hfe : (root ++ ['/']).isEmpty = false := by
    cases root <;> rfl
  have hinter :
      List.intercalate ['/'] [root ++ ['/'], [c0], [c1], c0 :: c1 :: rest] =
        root ++ '/' :: '/' :: c0 :: '/' :: c1 :: '/' :: c0 :: c1 :: rest := by
    simp [List.intercalate, List.intersperse]
  have hnd : noDupSlash (root ++ '/' :: c0 :: '/' :: c1 :: '/' :: c0 :: c1 :: rest) = true := by
    apply noDupSlash_append root _ h2 _ (Or.inl h3)
    have t1 : noDupSlash (c1 :: rest) = true := by
      apply noDupSlash_of_not_mem
      intro hm
      rcases List.mem_cons.mp hm with h | hm2
      · exact hc1 h.symm
      · exact hrest hm2
    simp [noDupSlash, hc0, hc1, t1]
  rw [goJoin]
  simp only [List.dropWhile_cons, hfe, if_false, Bool.false_eq_true]
  rw [hinter]
  exact collapseDup_extra root _ hnd

theorem splitUnderscore_ne_nil (l : List Char) : splitUnderscore l ≠ [] := by
  cases l with
  | nil => simp [splitUnderscore]
  | cons a r =>
    by_cases ha : a = '_'
    · simp [splitUnderscore, ha]
    · simp only [splitUnderscore, ha, if_false]
      cases splitUnderscore r <;> simp

theorem noDupSlash_slash_cons (s : List Char) (h : '/' ∉ s) :
    noDupSlash ('/' :: s) = true := by
  cases s with
  | nil => rfl
  | cons b t =>
    have hb : b ≠ '/' := fun hEq => h (hEq ▸ List.mem_cons_self b t)
    simp [noDupSlash, hb, noDupSlash_of_not_mem _ h]

/-- The claimed on-disk layout `base/<hex[0]>/<hex[1]>/<hex>`. -/
def shardPath (base hx : List Char) : List Char :=
  base ++ '/' :: (hx.take 1 ++ '/' :: ((hx.drop 1).take 1 ++ '/' :: hx))

/-- Path shape for a bucketed key (nonempty first `'_'`-segment): the bucket
is a literal directory between root and the fan-out levels. -/
theorem fcPath_bucket (root s rest : List Char)
    (hroot1 : root ≠ []) (hroot2 : noDupSlash root = true)
    (hroot3 : root.getLast? ≠ some '/')
    (hs0 : s ≠ []) (hs1 : '_' ∉ s) (hs2 : '/' ∉ s) :
    fcPath root (s ++ '_' :: rest) =
      shardPath (root ++ '/' :: s) (md5HexChars (s ++ '_' :: rest)) := by
  have hsp := splitUnderscore_append s rest hs1
  have hlen32 := md5HexChars_length (s ++ '_' :: rest)
  have hslash := md5HexChars_ne_slash (s ++ '_' :: rest)
  rcases hh : md5HexChars (s ++ '_' :: rest) with _ | ⟨c0, _ | ⟨c1, hrest⟩⟩
  · rw [hh] at hlen32; simp at hlen32
  · rw [hh] at hlen32; simp at hlen32
  rw [hh] at hslash
  have hc0 : c0 ≠ '/' := hslash c0 (List.mem_cons_self _ _)
  have hc1 : c1 ≠ '/' := hslash c1 (List.mem_cons_of_mem _ (List.mem_cons_self _ _))
  have hhr : '/' ∉ hrest := fun hm =>
    hslash '/' (List.mem_cons_of_mem _ (List.mem_cons_of_mem _ hm)) rfl
  have hfirst1 : root ++ '/' :: s ≠ [] := by simp
  have hfirst2 : noDupSlash (root ++ '/' :: s) = true :=
    noDupSlash_append root ('/' :: s) hroot2 (noDupSlash_slash_cons s hs2) (Or.inl hroot3)
  have hfirst3 : (root ++ '/' :: s).getLast? ≠ some '/' := by
    rw [List.getLast?_append]
    have : ('/' :: s).getLast? ≠ some '/' := by
      cases s with
      | nil => exact absurd rfl hs0
      | cons b t =>
        rw [List.getLast?_cons_cons]
        exact getLast?_ne_of_forall (b :: t) '/' (fun ch hm hEq => hs2 (hEq ▸ hm))
    cases hcase : ('/' :: s).getLast? with
    | none => simp at hcase
    | some x =>
      rw [hcase] at this
      simpa [Option.or, hcase] using this
  have hshape := goJoin_shape (root ++ '/' :: s) c0 c1 hrest hfirst1 hfirst2 hfirst3 hc0 hc1 hhr
  have hgel : (splitUnderscore (s ++ '_' :: rest)).length ≥ 2 := by
    rw [hsp]
    have := splitUnderscore_ne_nil rest
    cases hrr : splitUnderscore rest with
    | nil => exact absurd hrr this
    | cons x xs => simp [hrr]
  rw [fcPath, if_pos hgel, hsp, hh]
  simp only [List.headD, List.take, List.drop]
  rw [hshape, shardPath]
  simp

/-- Path shape for a key without the bucket delimiter: no bucket
directory. -/
theorem fcPath_plain (root key : List Char)
    (hroot1 : root ≠ []) (hroot2 : noDupSlash root = true)
    (hroot3 : root.getLast? ≠ some '/')
    (hk : '_' ∉ key) :
    fcPath root key = shardPath root (md5HexChars key) := by
  have hsp := splitUnderscore_of_not_mem key hk
  have hlen32 := md5HexChars_length key
  have hslash := md5HexChars_ne_slash key
  rcases hh : md5HexChars key with _ | ⟨c0, _ | ⟨c1, hrest⟩⟩
  · rw [hh] at hlen32; simp at hlen32
  · rw [hh] at hlen32; simp at hlen32
  rw [hh] at hslash
  have hc0 : c0 ≠ '/' := hslash c0 (List.mem_cons_self _ _)
  have hc1 : c1 ≠ '/' := hslash c1 (List.mem_cons_of_mem _ (List.mem_cons_self _ _))
  have hhr : '/' ∉ hrest := fun hm =>
    hslash '/' (List.mem_cons_of_mem _ (List.mem_cons_of_mem _ hm)) rfl
  have hshape := goJoin_shape root c0 c1 hrest hroot1 hroot2 hroot3 hc0 hc1 hhr
  have hnot : ¬ (splitUnderscore key).length ≥ 2 := by
    rw [hsp]; simp
  rw [fcPath, if_neg hnot, hh]
  simp only [List.take, List.drop, List.append_nil]
  rw [hshape, shardPath]
  simp

/-- Path shape for a key whose first `'_'`-segment is empty (the key starts
with `'_'`): the resulting first join component ends in a separator, `Clean`
collapses it, and the path coincides with the unbucketed layout. -/
theorem fcPath_emptyBucket (root rest : List Char)
    (hroot2 : noDupSlash root = true)
    (hroot3 : root.getLast? ≠ some '/') :
    fcPath root ('_' :: rest) = shardPath root (md5HexChars ('_' :: rest)) := by
  have hsp : splitUnderscore ('_' :: rest) = [] :: splitUnderscore rest := by
    simp [splitUnderscore]
  have hlen32 := md5HexChars_length ('_' :: rest)
  have hslash := md5HexChars_ne_slash ('_' :: rest)
  rcases hh : md5HexChars ('_' :: rest) with _ | ⟨c0, _ | ⟨c1, hrest⟩⟩
  · rw [hh] at hlen32; simp at hlen32
  · rw [hh] at hlen32; simp at hlen32
  rw [hh] at hslash
  have hc0 : c0 ≠ '/' := hslash c0 (List.mem_cons_self _ _)
  have hc1 : c1 ≠ '/' := hslash c1 (List.mem_cons_of_mem _ (List.mem_cons_self _ _))
  have hhr : '/' ∉ hrest := fun hm =>
    hslash '/' (List.mem_cons_of_mem _ (List.mem_cons_of_mem _ hm)) rfl
  have hshape := goJoin_shape_slash root c0 c1 hrest hroot2 hroot3 hc0 hc1 hhr
  have hgel : (splitUnderscore ('_' :: rest)).length ≥ 2 := by
    rw [hsp]
    have := splitUnderscore_ne_nil rest
    cases hrr : splitUnderscore rest with
    | nil => exact absurd hrr this
    | cons x xs => simp [hrr]
  rw [fcPath, if_pos hgel, hsp, hh]
  simp only [List.headD, List.take, List.drop]
  rw [shardPath]
  have harg : root ++ '/' :: ([] : List Char) = root ++ ['/'] := by simp
  rw [harg, hshape]
  simp

/-! ## Claim theorems -/

theorem read_ok_fsGet (c : FileCache) (fs : FS) (key : String) (item : Item)
    (h : FileCache.read c fs key = .ok item) :
    fsGet fs (c.filepath key) = some (.good item) := by
  simp only [FileCache.read] at h
  cases hg : fsGet fs (c.filepath key) with
  | none => rw [hg] at h; exact Except.noConfusion h
  | some d =>
    cases d with
    | corrupt => rw [hg] at h; exact Except.noConfusion h
    | good it => rw [hg] at h; injection h with h2; rw [h2]

theorem read_Set (c : FileCache) (fs : FS) (t : Int) (k : String) (v : GoVal)
    (e : Int) :
    FileCache.read c (FileCache.Set c fs t k v e) k = .ok ⟨goStore v, t, e⟩ := by
  simp [FileCache.read, FileCache.Set, fsGet_fsWrite_self]

theorem incr_decr_type_mismatch (v : GoVal) (h : intFamily v = false) :
    Incr v = .error "item value is not int-type" ∧
    Decr v = .error "item value is not int-type" := by
  cases v <;> first
    | exact ⟨rfl, rfl⟩
    | exact absurd h (by simp [intFamily])

theorem incr_ok_store (u v : GoVal) (h : Incr u = .ok v) : goStore v = v := by
  cases u <;> simp only [Incr] at h <;> first
    | exact Except.noConfusion h
    | (injection h with h2; subst h2; rfl)

theorem decr_ok_store (u v : GoVal) (h : Decr u = .ok v) : goStore v = v := by
  cases u <;> simp only [Decr] at h
  case vint n => injection h with h2; subst h2; rfl
  case vint32 n => injection h with h2; subst h2; rfl
  case vint64 n => injection h with h2; subst h2; rfl
  case vuint n =>
    by_cases hn : n > 0
    · rw [if_pos hn] at h; injection h with h2; subst h2; rfl
    · rw [if_neg hn] at h; exact Except.noConfusion h
  case vuint32 n =>
    by_cases hn : n > 0
    · rw [if_pos hn] at h; injection h with h2; subst h2; rfl
    · rw [if_neg hn] at h; exact Except.noConfusion h
  case vuint64 n =>
    by_cases hn : n > 0
    · rw [if_pos hn] at h; injection h with h2; subst h2; rfl
    · rw [if_neg hn] at h; exact Except.noConfusion h
  all_goals exact Except.noConfusion h

/-- A concrete store configuration used by witnesses. -/
def cW : FileCache := ⟨"/r", 0⟩

/-- Claim C1: the spec demands that `Get` on an expired entry delete the
backing file and return a non-nil NotFound-class error.  The code does
delete the file, but then executes `return nil, err` where `err` is the nil
error left over from the successful read: the caller receives a nil value
with a nil error.  The deletion conjunct holds; the returned error is `none`
— the bug. -/
theorem claim_C1 (c : FileCache) (fs : FS) (now : Int) (key : String)
    (item : Item)
    (hread : FileCache.read c fs key = .ok item)
    (hexp : item.hasExpired now = true) :
    FileCache.Get c fs now key = .ok (fsErase fs (c.filepath key), none, none) ∧
    fsGet (fsErase fs (c.filepath key)) (c.filepath key) = none := by
  refine ⟨?_, fsGet_fsErase_self fs (c.filepath key)⟩
  simp [FileCache.Get, hread, hexp]

/-- Witness for claim C1 at a concrete expired entry. -/
theorem claim_C1_witness :
    FileCache.Get cW (FileCache.Set cW [] 100 "e" (.vstr "v") 1) 101 "e" =
      .ok (fsErase (FileCache.Set cW [] 100 "e" (.vstr "v") 1)
        (cW.filepath "e"), none, none) ∧
    fsGet (fsErase (FileCache.Set cW [] 100 "e" (.vstr "v") 1) (cW.filepath "e"))
        (cW.filepath "e") = none :=
  claim_C1 cW (FileCache.Set cW [] 100 "e" (.vstr "v") 1) 101 "e"
    ⟨.vstr "v", 100, 1⟩ (by rfl) (by rfl)

/-- Claim C4: a stored value outside the integer family makes both counter
operations fail with the type-mismatch error; a stored unsigned zero makes
`Decr` fail with the underflow error; the store-level scenario — `Set`
unsigned `0`, `Incr`, `Decr`, `Decr` — succeeds twice and fails the second
`Decr` with underflow; and `Incr` on a stored string fails with the
type-mismatch error. -/
theorem claim_C4 :
    (∀ (c : FileCache) (fs : FS) (now : Int) (key : String) (item : Item),
        FileCache.read c fs key = .ok item → intFamily item.Val = false →
        (FileCache.Incr c fs now key).2 = some (.msg "item value is not int-type") ∧
        (FileCache.Decr c fs now key).2 = some (.msg "item value is not int-type")) ∧
    (∀ (c : FileCache) (fs : FS) (now : Int) (key : String) (item : Item),
        FileCache.read c fs key = .ok item →
        (item.Val = .vuint 0 ∨ item.Val = .vuint32 0 ∨ item.Val = .vuint64 0) →
        (FileCache.Decr c fs now key).2 = some (.msg "item value is less than 0")) ∧
    (∀ (c : FileCache) (fs : FS) (t0 t1 t2 t3 : Int) (k : String),
        (FileCache.Incr c (FileCache.Set c fs t0 k (.vuint 0) 0) t1 k).2 = none ∧
        (FileCache.Decr c
          (FileCache.Incr c (FileCache.Set c fs t0 k (.vuint 0) 0) t1 k).1 t2 k).2 =
          none ∧
        (FileCache.Decr c
          (FileCache.Decr c
            (FileCache.Incr c (FileCache.Set c fs t0 k (.vuint 0) 0) t1 k).1 t2 k).1
          t3 k).2 = some (.msg "item value is less than 0")) ∧
    (∀ (c : FileCache) (fs : FS) (t0 t1 : Int) (k s : String),
        (FileCache.Incr c (FileCache.Set c fs t0 k (.vstr s) 0) t1 k).2 =
          some (.msg "item value is not int-type")) := by
  refine ⟨?_, ?_, ?_, ?_⟩
  · intro c fs now key item hread hfam
    obtain ⟨h1, h2⟩ := incr_decr_type_mismatch item.Val hfam
    constructor
    · simp [FileCache.Incr, hread, valIncr, h1]
    · simp [FileCache.Decr, hread, valDecr, h2]
  · intro c fs now key item hread hval
    rcases hval with h | h | h <;>
      simp [FileCache.Decr, hread, valDecr, Decr, h]
  · intro c fs t0 t1 t2 t3 k
    have e1 : FileCache.Incr c (FileCache.Set c fs t0 k (.vuint 0) 0) t1 k =
        (FileCache.Set c (FileCache.Set c fs t0 k (.vuint 0) 0) t1 k (.vuint 1) 0,
          none) := by
      rw [FileCache.Incr, read_Set]
      norm_num [valIncr, Incr, goStore, isNotNumber]
    have e2 : FileCache.Decr c
        (FileCache.Set c (FileCache.Set c fs t0 k (.vuint 0) 0) t1 k (.vuint 1) 0)
        t2 k =
        (FileCache.Set c
          (FileCache.Set c (FileCache.Set c fs t0 k (.vuint 0) 0) t1 k (.vuint 1) 0)
          t2 k (.vuint 0) 0, none) := by
      rw [FileCache.Decr, read_Set]
      norm_num [valDecr, Decr, goStore, isNotNumber]
    refine ⟨by rw [e1], by rw [e1, e2], ?_⟩
    rw [e1, e2]
    rw [FileCache.Decr, read_Set]
    norm_num [valDecr, Decr, goStore, isNotNumber]
  · intro c fs t0 t1 k s
    rw [FileCache.Incr, read_Set]
    norm_num [valIncr, Incr, goStore, isNotNumber]

/-- Witness for claim C4 at concrete stores: a stored boolean, a stored
unsigned zero, the full counter scenario, and a stored string. -/
theorem claim_C4_witness :
    ((FileCache.Incr cW (FileCache.Set cW [] 0 "b" (.vbool true) 0) 1 "b").2 =
        some (.msg "item value is not int-type") ∧
      (FileCache.Decr cW (FileCache.Set cW [] 0 "b" (.vbool true) 0) 1 "b").2 =
        some (.msg "item value is not int-type")) ∧
    (FileCache.Decr cW (FileCache.Set cW [] 0 "u" (.vuint 0) 0) 1 "u").2 =
      some (.msg "item value is less than 0") ∧
    ((FileCache.Incr cW (FileCache.Set cW [] 0 "k" (.vuint 0) 0) 1 "k").2 = none ∧
      (FileCache.Decr cW
        (FileCache.Incr cW (FileCache.Set cW [] 0 "k" (.vuint 0) 0) 1 "k").1 2 "k").2 =
        none ∧
      (FileCache.Decr cW
        (FileCache.Decr cW
          (FileCache.Incr cW (FileCache.Set cW [] 0 "k" (.vuint 0) 0) 1 "k").1 2 "k").1
        3 "k").2 = some (.msg "item value is less than 0")) ∧
    (FileCache.Incr cW (FileCache.Set cW [] 0 "s" (.vstr "x") 0) 1 "s").2 =
      some (.msg "item value is not int-type") :=
  ⟨claim_C4.1 cW (FileCache.Set cW [] 0 "b" (.vbool true) 0) 1 "b"
      ⟨.vbool true, 0, 0⟩ (by rfl) (by rfl),
    claim_C4.2.1 cW (FileCache.Set cW [] 0 "u" (.vuint 0) 0) 1 "u"
      ⟨.vuint 0, 0, 0⟩ (by rfl) (Or.inl rfl),
    claim_C4.2.2.1 cW [] 0 1 2 3 "k",
    claim_C4.2.2.2 cW [] 0 1 "s" "x"⟩

/-- Claim C5: a successful `Incr`/`Decr` writes back an entry whose value is
the stepped counter, whose `Expire` equals the TTL before the operation, and
whose `Created` is reset to the current time; no other file of the store
changes. -/
theorem claim_C5 (c : FileCache) (fs : FS) (now : Int) (key : String)
    (item : Item)
    (hread : FileCache.read c fs key = .ok item) :
    (∀ v, valIncr item.Val = .ok v →
        FileCache.Incr c fs now key =
          (FileCache.Set c fs now key v item.Expire, none) ∧
        fsGet (FileCache.Incr c fs now key).1 (c.filepath key) =
          some (.good ⟨v, now, item.Expire⟩) ∧
        (∀ p, p ≠ c.filepath key →
          fsGet (FileCache.Incr c fs now key).1 p = fsGet fs p)) ∧
    (∀ v, valDecr item.Val = .ok v →
        FileCache.Decr c fs now key =
          (FileCache.Set c fs now key v item.Expire, none) ∧
        fsGet (FileCache.Decr c fs now key).1 (c.filepath key) =
          some (.good ⟨v, now, item.Expire⟩) ∧
        (∀ p, p ≠ c.filepath key →
          fsGet (FileCache.Decr c fs now key).1 p = fsGet fs p)) := by
  constructor
  · intro v hv
    rw [valIncr] at hv
    have heq : FileCache.Incr c fs now key =
        (FileCache.Set c fs now key v item.Expire, none) := by
      simp [FileCache.Incr, hread, valIncr, hv]
    refine ⟨heq, ?_, ?_⟩
    · rw [heq]
      simp [FileCache.Set, fsGet_fsWrite_self, incr_ok_store item.Val v hv]
    · intro p hp
      rw [heq]
      simp only [FileCache.Set]
      exact fsGet_fsWrite_ne fs (c.filepath key) p _ hp
  · intro v hv
    rw [valDecr] at hv
    have heq : FileCache.Decr c fs now key =
        (FileCache.Set c fs now key v item.Expire, none) := by
      simp [FileCache.Decr, hread, valDecr, hv]
    refine ⟨heq, ?_, ?_⟩
    · rw [heq]
      simp [FileCache.Set, fsGet_fsWrite_self, decr_ok_store item.Val v hv]
    · intro p hp
      rw [heq]
      simp only [FileCache.Set]
      exact fsGet_fsWrite_ne fs (c.filepath key) p _ hp

/-- Witness for claim C5 at a stored `int` with TTL 7. -/
theorem claim_C5_witness :
    FileCache.Incr cW (FileCache.Set cW [] 50 "n" (.vint 3) 7) 60 "n" =
      (FileCache.Set cW (FileCache.Set cW [] 50 "n" (.vint 3) 7) 60 "n"
        (.vint 4) 7, none) ∧
    fsGet (FileCache.Incr cW (FileCache.Set cW [] 50 "n" (.vint 3) 7) 60 "n").1
        (cW.filepath "n") = some (.good ⟨.vint 4, 60, 7⟩) :=
  by
    have h := (claim_C5 cW (FileCache.Set cW [] 50 "n" (.vint 3) 7) 60 "n"
      ⟨.vint 3, 50, 7⟩ (by rfl)).1 (.vint 4) (by rfl)
    exact ⟨h.1, h.2.1⟩

/-- File contents that decode (the good case of the sweep walk). -/
def fileGood : String × FileData → Bool
  | (_, .good _) => true
  | (_, .corrupt) => false

/-- File contents the sweep leaves in place: a decodable, non-expired
item (corrupt files are also never deleted — they abort instead). -/
def fileLive (now : Int) : String × FileData → Bool
  | (_, .good item) => !item.hasExpired now
  | (_, .corrupt) => true

/-- Claim C6: when every file decodes, one sweep deletes exactly the files
whose item is expired at sweep time and keeps the rest; an entry with TTL 0
survives every sweep unconditionally; a decode failure anywhere makes the
sweep abort with the decode error rather than skipping the file; and
`startGC` performs exactly this sweep whenever the interval is at least
1. -/
theorem claim_C6 :
    (∀ (now : Int) (files : FS), files.all fileGood = true →
        gcSweep now files = (files.filter (fileLive now), none)) ∧
    (∀ (now : Int) (files : FS) (p : String) (item : Item),
        (p, FileData.good item) ∈ files → item.Expire = 0 →
        (p, FileData.good item) ∈ (gcSweep now files).1) ∧
    (∀ (now : Int) (files : FS), files.all fileGood = false →
        (gcSweep now files).2 = some GErr.decode) ∧
    (∀ (c : FileCache) (fs : FS) (now : Int), 1 ≤ c.interval →
        FileCache.startGC c fs now = gcSweep now fs) := by
  refine ⟨?_, ?_, ?_, ?_⟩
  · intro now files hall
    induction files with
    | nil => rfl
    | cons e rest ih =>
      obtain ⟨q, d⟩ := e
      cases d with
      | corrupt => simp [List.all_cons, fileGood] at hall
      | good item =>
        have hrest : rest.all fileGood = true := by
          rw [List.all_cons] at hall
          exact (Bool.and_eq_true_iff.mp hall).2
        by_cases hx : item.hasExpired now
        · simp [gcSweep, hx, ih hrest, List.filter_cons, fileLive]
        · simp [gcSweep, hx, ih hrest, List.filter_cons, fileLive]
  · intro now files p item hmem h0
    have hlive : item.hasExpired now = false := by
      simp [Item.hasExpired, h0]
    induction files with
    | nil => exact absurd hmem (List.not_mem_nil _)
    | cons e rest ih =>
      obtain ⟨q, d⟩ := e
      rcases List.mem_cons.mp hmem with hEq | hm2
      · cases hEq
        simp [gcSweep, hlive]
      · cases d with
        | corrupt => simp [gcSweep, List.mem_cons, hm2]
        | good it2 =>
          by_cases hx : it2.hasExpired now
          · simpa [gcSweep, hx] using ih hm2
          · simpa [gcSweep, hx, List.mem_cons] using Or.inr (ih hm2)
  · intro now files hbad
    induction files with
    | nil => simp [List.all_nil] at hbad
    | cons e rest ih =>
      obtain ⟨q, d⟩ := e
      cases d with
      | corrupt => rfl
      | good item =>
        have hrest : rest.all fileGood = false := by
          rw [List.all_cons] at hbad
          simpa [fileGood] using hbad
        by_cases hx : item.hasExpired now
        · simpa [gcSweep, hx] using ih hrest
        · simpa [gcSweep, hx] using ih hrest
  · intro c fs now hint
    have : ¬ c.interval < 1 := by omega
    simp [FileCache.startGC, this]

/-- Witness for claim C6 on a two-file store (one entry with TTL 1 created
at time 0, one with TTL 0) swept at time 5, a corrupt store, and an enabled
interval. -/
theorem claim_C6_witness :
    gcSweep 5 [("a", .good ⟨.vint 1, 0, 1⟩), ("b", .good ⟨.vint 1, 0, 0⟩)] =
      ([("a", .good ⟨.vint 1, 0, 1⟩), ("b", .good ⟨.vint 1, 0, 0⟩)].filter
        (fileLive 5), none) ∧
    ("b", FileData.good ⟨.vint 1, 0, 0⟩) ∈
      (gcSweep 5 [("a", .good ⟨.vint 1, 0, 1⟩),
        ("b", .good ⟨.vint 1, 0, 0⟩)]).1 ∧
    (gcSweep 5 [("c", FileData.corrupt)]).2 = some GErr.decode ∧
    FileCache.startGC ⟨"/r", 60⟩ [("c", FileData.corrupt)] 5 =
      gcSweep 5 [("c", FileData.corrupt)] :=
  ⟨claim_C6.1 5 _ (by rfl),
    claim_C6.2.1 5 _ "b" ⟨.vint 1, 0, 0⟩
      (List.mem_cons_of_mem _ (List.mem_cons_self _ _)) rfl,
    claim_C6.2.2.1 5 [("c", FileData.corrupt)] (by rfl),
    claim_C6.2.2.2 ⟨"/r", 60⟩ [("c", FileData.corrupt)] 5 (by norm_num)⟩

theorem GoTime.str_ne_empty (t : GoTime) : t.str ≠ "" := by
  have hlen : 2 ≤ t.str.length := by
    have h1 : (" " : String).length = 1 := rfl
    simp [GoTime.str, String.length_append]
    omega
  intro hEq
  rw [hEq] at hlen
  simp at hlen

theorem hmsetStep_structv (acc : List (String × GoVal)) (tag : String) :
    hmsetStep acc (.plain tag .structv) = acc := by
  by_cases h : tag = "" <;> simp [hmsetStep, setValue, h]

/-- Counterexample to claim C9: flattening a record with one timestamp field
holding 2009-11-10 23:00:00 UTC stores the default Go rendering with the
zone-offset and zone-name suffix, not the bare fixed format the claim
demands. -/
theorem claim_C9_counterexample :
    hmsetValues [.plain "t" (.timev ⟨2009, 11, 10, 23, 0, 0, 0, 0, "UTC"⟩)] =
      [("t", .vstr "2009-11-10 23:00:00 +0000 UTC")] ∧
    "2009-11-10 23:00:00 +0000 UTC" ≠ "2009-11-10 23:00:00" := by
  constructor
  · rfl
  · decide

/-- Claim C9 (amended): a timestamp field with a resolvable tag flattens to
`ToStr` of the time — Go's default rendering — whose whole-second form is
the claimed `"YYYY-MM-DD HH:MM:SS"` followed by the zone offset and zone
name; and a non-timestamp struct-kind field contributes nothing to the
flattened record. -/
theorem claim_C9 :
    (∀ (tag : String) (t : GoTime), tag ≠ "" →
        hmsetValues [.plain tag (.timev t)] = [(tag, .vstr t.str)]) ∧
    (∀ t : GoTime, t.nsec = 0 →
        t.str = t.ymdhms ++ " " ++ offsetText t.offSec ++ " " ++ t.zone) ∧
    (∀ (pre post : List GoField) (tag : String),
        hmsetValues (pre ++ .plain tag .structv :: post) =
          hmsetValues (pre ++ post)) := by
  refine ⟨?_, ?_, ?_⟩
  · intro tag t htag
    simp [hmsetValues, hmsetStep, setValue, htag, GoTime.str_ne_empty t, assocSetG]
  · intro t h0
    simp [GoTime.str, fracText, h0]
  · intro pre post tag
    simp [hmsetValues, List.foldl_append, List.foldl_cons, hmsetStep_structv]

/-- Witness for claim C9 at a concrete tag, time and field list. -/
theorem claim_C9_witness :
    hmsetValues [.plain "w" (.timev ⟨2020, 1, 2, 3, 4, 5, 0, 0, "UTC"⟩)] =
      [("w", .vstr (GoTime.str ⟨2020, 1, 2, 3, 4, 5, 0, 0, "UTC"⟩))] ∧
    GoTime.str ⟨2020, 1, 2, 3, 4, 5, 0, 0, "UTC"⟩ =
      GoTime.ymdhms ⟨2020, 1, 2, 3, 4, 5, 0, 0, "UTC"⟩ ++ " " ++
        offsetText 0 ++ " " ++ "UTC" ∧
    hmsetValues [GoField.plain "x" .structv] = hmsetValues [] :=
  ⟨(claim_C9.1 "w" ⟨2020, 1, 2, 3, 4, 5, 0, 0, "UTC"⟩ (by decide)),
    claim_C9.2.1 ⟨2020, 1, 2, 3, 4, 5, 0, 0, "UTC"⟩ rfl,
    claim_C9.2.2 [] [] "x"⟩

/-- Claim C10: `Expire` stores the raw `int64` value of the duration — its
nanosecond count — in the `Expire` field that `hasExpired` compares against
elapsed seconds, so after `Expire(key, time.Second)` (raw value `10^9`) the
entry does not expire until `10^9` seconds have elapsed. -/
theorem claim_C10 (c : FileCache) (fs : FS) (now : Int) (key : String)
    (item : Item) (pv : Option GoVal) (d : Int)
    (hread : FileCache.read c fs key = .ok item)
    (hlive : item.hasExpired now = false)
    (hpay : getPayload item.Val = .ok pv) :
    ∃ fs2 v,
      FileCache.Expire c fs now key d = .ok (fs2, true) ∧
      fsGet fs2 (c.filepath key) = some (.good ⟨v, now, d⟩) ∧
      (∀ t : Int, Item.hasExpired ⟨v, now, d⟩ (now + t) =
        (decide (0 < d) && decide (d ≤ t))) ∧
      (d = 1000000000 →
        (∀ t : Int, t < 1000000000 →
          Item.hasExpired ⟨v, now, d⟩ (now + t) = false) ∧
        Item.hasExpired ⟨v, now, d⟩ (now + 1000000000) = true) := by
  have hget := read_ok_fsGet c fs key item hread
  have hvs : FileCache.Exists c fs key = true := by
    simp [FileCache.Exists, hget]
  have hGet : FileCache.Get c fs now key = .ok (fs, pv, none) := by
    simp [FileCache.Get, hread, hlive, hpay]
  refine ⟨FileCache.Set c fs now key (pv.getD .vnull) d,
    goStore (pv.getD .vnull), ?_, ?_, ?_, ?_⟩
  · simp [FileCache.Expire, hvs, hGet]
  · simp [FileCache.Set, fsGet_fsWrite_self]
  · intro t
    rw [Item.hasExpired]
    have harr : now + t - now = t := by ring
    simp only [harr]
  · intro hd
    constructor
    · intro t ht
      rw [Item.hasExpired]
      have harr : now + t - now = t := by ring
      simp only [harr, hd]
      have : ¬ ((1000000000 : Int) ≤ t) := by omega
      simp [this]
    · rw [Item.hasExpired]
      have harr : now + 1000000000 - now = (1000000000 : Int) := by ring
      simp only [harr, hd]
      norm_num

/-- Witness for claim C10: a live entry and the one-second duration. -/
theorem claim_C10_witness :
    ∃ fs2 v,
      FileCache.Expire cW (FileCache.Set cW [] 100 "x" (.vstr "v") 0) 100 "x"
        1000000000 = .ok (fs2, true) ∧
      fsGet fs2 (cW.filepath "x") = some (.good ⟨v, 100, 1000000000⟩) ∧
      (∀ t : Int, Item.hasExpired ⟨v, 100, 1000000000⟩ (100 + t) =
        (decide ((0 : Int) < 1000000000) && decide ((1000000000 : Int) ≤ t))) ∧
      ((1000000000 : Int) = 1000000000 →
        (∀ t : Int, t < 1000000000 →
          Item.hasExpired ⟨v, 100, 1000000000⟩ (100 + t) = false) ∧
        Item.hasExpired ⟨v, 100, 1000000000⟩ (100 + 1000000000) = true) :=
  claim_C10 cW (FileCache.Set cW [] 100 "x" (.vstr "v") 0) 100 "x"
    ⟨.vstr "v", 100, 0⟩ (some (.vstr "v")) 1000000000 (by rfl) (by rfl) (by rfl)

/-- On a live entry holding the marshalled form of a string-valued record,
`HGetAll` returns the `ToStr` image of its entries. -/
theorem hgetall_map (c : FileCache) (fs : FS) (now : Int) (k : String)
    (m : List (String × GoVal)) (tc te : Int)
    (hget : fsGet fs (c.filepath k) = some (.good ⟨.vblob (.vmap m), tc, te⟩))
    (hlive : Item.hasExpired ⟨.vblob (.vmap m), tc, te⟩ now = false) :
    FileCache.HGetAll c fs now k =
      .ok (fs, some (m.map (fun e => (e.1, ToStr e.2))), none) := by
  have hvs : FileCache.Exists c fs k = true := by
    simp [FileCache.Exists, hget]
  have hread : FileCache.read c fs k = .ok ⟨.vblob (.vmap m), tc, te⟩ := by
    simp [FileCache.read, hget]
  have hGet : FileCache.Get c fs now k = .ok (fs, some (.vmap m), none) := by
    simp [FileCache.Get, hread, hlive, getPayload, isNotNumber]
  simp [FileCache.HGetAll, hvs, hGet]

/-- Counterexample to claim C2: on a store where `k` is absent, `HSet`
returns `(false, nil)` without storing anything, and `HGetAll` then fails
with the `is empty` error — not the mapping `{a:"1"}`. -/
theorem claim_C2_counterexample :
    FileCache.HSet ⟨"/r", 0⟩ [] 0 "k" (.vmap [("a", .vstr "1")]) =
      .ok ([], false, none) ∧
    FileCache.HGetAll ⟨"/r", 0⟩ [] 0 "k" =
      .ok ([], none, some (.msg "is empty")) := by
  constructor <;> rfl

/-- Claim C2 (amended): on a key that exists and currently holds an empty
record (as left by `Set(k, {}, 0)`), `HSet(k, {a:"1"})` succeeds, `HGetAll`
then returns exactly `{a:"1"}`, and after `HDel(k, "a")` it returns exactly
`{}`.  (On an absent key `HSet` is a silent no-op, and on a nonempty stored
record `HSet` merges — see the counterexample.) -/
theorem claim_C2 (c : FileCache) (fs : FS) (t0 t1 t2 t3 t4 : Int) (k : String) :
    ∃ fs1 fs2,
      FileCache.HSet c (FileCache.Set c fs t0 k (.vmap []) 0) t1 k
          (.vmap [("a", .vstr "1")]) = .ok (fs1, true, none) ∧
      FileCache.HGetAll c fs1 t2 k = .ok (fs1, some [("a", "1")], none) ∧
      FileCache.HDel c fs1 t3 k "a" = .ok (fs2, none) ∧
      FileCache.HGetAll c fs2 t4 k = .ok (fs2, some [], none) := by
  set p := c.filepath k with hp
  have hg0 : fsGet (FileCache.Set c fs t0 k (.vmap []) 0) p =
      some (.good ⟨.vblob (.vmap []), t0, 0⟩) := by
    simp [FileCache.Set, goStore, isNotNumber, jsonNorm, jsonNormEntries, ← hp,
      fsGet_fsWrite_self]
  have hlive0 : ∀ t : Int,
      Item.hasExpired ⟨.vblob (.vmap []), t0, 0⟩ t = false := by
    intro t; simp [Item.hasExpired]
  have hga0 := hgetall_map c (FileCache.Set c fs t0 k (.vmap []) 0) t1 k [] t0 0
    hg0 (hlive0 t1)
  have hex0 : FileCache.Exists c (FileCache.Set c fs t0 k (.vmap []) 0) k = true := by
    simp [FileCache.Exists, ← hp, hg0]
  have hhset : FileCache.HSet c (FileCache.Set c fs t0 k (.vmap []) 0) t1 k
      (.vmap [("a", .vstr "1")]) =
      .ok (FileCache.Set c (FileCache.Set c fs t0 k (.vmap []) 0) t1 k
        (.vmap [("a", .vstr "1")]) 0, true, none) := by
    simp [FileCache.HSet, hex0, hga0, strMapVal, assocSet, ToStr]
  set fs1 := FileCache.Set c (FileCache.Set c fs t0 k (.vmap []) 0) t1 k
    (.vmap [("a", .vstr "1")]) 0 with hfs1
  have hg1 : fsGet fs1 p =
      some (.good ⟨.vblob (.vmap [("a", .vstr "1")]), t1, 0⟩) := by
    simp [hfs1, FileCache.Set, goStore, isNotNumber, jsonNorm, jsonNormEntries,
      ← hp, fsGet_fsWrite_self]
  have hlive1 : ∀ t : Int,
      Item.hasExpired ⟨.vblob (.vmap [("a", .vstr "1")]), t1, 0⟩ t = false := by
    intro t; simp [Item.hasExpired]
  have hga1 := hgetall_map c fs1 t2 k [("a", .vstr "1")] t1 0 hg1 (hlive1 t2)
  have hga1d := hgetall_map c fs1 t3 k [("a", .vstr "1")] t1 0 hg1 (hlive1 t3)
  have hex1 : FileCache.Exists c fs1 k = true := by
    simp [FileCache.Exists, ← hp, hg1]
  have hhdel : FileCache.HDel c fs1 t3 k "a" =
      .ok (FileCache.Set c fs1 t3 k (.vmap []) 0, none) := by
    simp [FileCache.HDel, hex1, hga1d, strMapVal]
  set fs2 := FileCache.Set c fs1 t3 k (.vmap []) 0 with hfs2
  have hg2 : fsGet fs2 p = some (.good ⟨.vblob (.vmap []), t3, 0⟩) := by
    simp [hfs2, FileCache.Set, goStore, isNotNumber, jsonNorm, jsonNormEntries,
      ← hp, fsGet_fsWrite_self]
  have hga2 := hgetall_map c fs2 t4 k [] t3 0 hg2 (hlive0 t4)
  refine ⟨fs1, fs2, hhset, ?_, hhdel, ?_⟩
  · simpa [ToStr] using hga1
  · simpa using hga2

/-- Counterexample to claim C3: with a live plain string stored under `k`,
`HGetAll` panics in the bare record cast (`interface conversion`) instead of
surfacing a ShapeMismatch-class error. -/
theorem claim_C3_counterexample :
    FileCache.HGetAll ⟨"/r", 0⟩
      (FileCache.Set ⟨"/r", 0⟩ [] 0 "k" (.vstr "hello") 0) 0 "k" = .panic := by
  rfl

/-- Claim C3 (amended): on a key whose stored entry is live and whose
`Get`-payload is any non-record value (for example the stringified scalar a
plain `Set` leaves behind), `HGetAll` panics in the bare type assertion
`newData.(map[string]interface{})`, and `HGet`, `HMGet`, `HSet` and `HDel`
— which all run `HGetAll` once the path exists — panic with it.  No
ShapeMismatch-class error value exists anywhere in the code. -/
theorem claim_C3 (c : FileCache) (fs : FS) (now : Int) (key field : String)
    (item : Item) (w : GoVal)
    (hread : FileCache.read c fs key = .ok item)
    (hlive : item.hasExpired now = false)
    (hpay : getPayload item.Val = .ok (some w))
    (hnotmap : ∀ m, w ≠ .vmap m) :
    FileCache.HGetAll c fs now key = .panic ∧
    FileCache.HGet c fs now key field = .panic ∧
    FileCache.HMGet c fs now key [field] = .panic ∧
    FileCache.HSet c fs now key (.vmap [(field, .vstr "1")]) = .panic ∧
    FileCache.HDel c fs now key field = .panic := by
  have hget := read_ok_fsGet c fs key item hread
  have hvs : FileCache.Exists c fs key = true := by
    simp [FileCache.Exists, hget]
  have hGet : FileCache.Get c fs now key = .ok (fs, some w, none) := by
    simp [FileCache.Get, hread, hlive, hpay]
  have hHGA : FileCache.HGetAll c fs now key = .panic := by
    simp only [FileCache.HGetAll, hvs, Bool.true_eq_false, not_false_eq_true,
      if_false, hGet]
    cases w <;> first
      | exact absurd rfl (hnotmap _)
      | rfl
  refine ⟨hHGA, ?_, ?_, ?_, ?_⟩
  · simp [FileCache.HGet, hvs, hHGA]
  · simp [FileCache.HMGet, hvs, hHGA]
  · simp [FileCache.HSet, hvs, hHGA]
  · simp [FileCache.HDel, hvs, hHGA]

/-- Witness for claim C3 at a live stored string. -/
theorem claim_C3_witness :
    FileCache.HGetAll cW (FileCache.Set cW [] 0 "w" (.vstr "hi") 0) 0 "w" =
        .panic ∧
    FileCache.HGet cW (FileCache.Set cW [] 0 "w" (.vstr "hi") 0) 0 "w" "f" =
        .panic ∧
    FileCache.HMGet cW (FileCache.Set cW [] 0 "w" (.vstr "hi") 0) 0 "w" ["f"] =
        .panic ∧
    FileCache.HSet cW (FileCache.Set cW [] 0 "w" (.vstr "hi") 0) 0 "w"
        (.vmap [("f", .vstr "1")]) = .panic ∧
    FileCache.HDel cW (FileCache.Set cW [] 0 "w" (.vstr "hi") 0) 0 "w" "f" =
        .panic :=
  claim_C3 cW (FileCache.Set cW [] 0 "w" (.vstr "hi") 0) 0 "w" "f"
    ⟨.vstr "hi", 0, 0⟩ (.vstr "hi") (by rfl) (by rfl) (by rfl)
    (fun m h => by cases h)

theorem rootOK_spec (root : String) (h : rootOK root = true) :
    root.data ≠ [] ∧ noDupSlash root.data = true ∧
      root.data.getLast? ≠ some '/' := by
  simp only [rootOK, Bool.and_eq_true, Bool.not_eq_true'] at h
  refine ⟨?_, h.1.2, ?_⟩
  · intro hEq
    rw [hEq] at h
    simp [List.isEmpty] at h
  · intro hEq
    have := h.2
    rw [hEq] at this
    simp at this

theorem inSubtree_spec (dir p : String) :
    inSubtree dir p = true ↔
      (p.data = dir.data ∨ dir.data ++ ['/'] <+: p.data) := by
  simp [inSubtree, String.ext_iff]

/-- Claim C7 (amended): the path of every key is
`<root>[/<bucket>]/<hex[0]>/<hex[1]>/<hex>` over the 32-character hex
encoding of the 16-byte MD5 digest of the full key, computed purely from the
key.  The bucket directory is the key's first `'_'`-segment and is present
exactly when the key contains `'_'` and that first segment is nonempty: a
key starting with `'_'` has an empty first segment, and the cleaning pass of
`filepath.Join` collapses the empty directory away, producing the unbucketed
layout (see the counterexample). -/
theorem claim_C7 :
    (∀ key : List Char,
        (md5Bytes (strBytes key)).length = 16 ∧ (md5HexChars key).length = 32) ∧
    (∀ (c : FileCache) (key : String) (s rest : List Char),
        rootOK c.rootPath = true →
        key.data = s ++ '_' :: rest → s ≠ [] → '_' ∉ s → '/' ∉ s →
        (FileCache.filepath c key).data =
          shardPath (c.rootPath.data ++ '/' :: s) (md5HexChars key.data)) ∧
    (∀ (c : FileCache) (key : String),
        rootOK c.rootPath = true → '_' ∉ key.data →
        (FileCache.filepath c key).data =
          shardPath c.rootPath.data (md5HexChars key.data)) ∧
    (∀ (c : FileCache) (key : String) (rest : List Char),
        rootOK c.rootPath = true → key.data = '_' :: rest →
        (FileCache.filepath c key).data =
          shardPath c.rootPath.data (md5HexChars key.data)) := by
  refine ⟨?_, ?_, ?_, ?_⟩
  · intro key
    exact ⟨md5Bytes_length (strBytes key), md5HexChars_length key⟩
  · intro c key s rest hro hk hs0 hs1 hs2
    obtain ⟨h1, h2, h3⟩ := rootOK_spec _ hro
    have hdata : (FileCache.filepath c key).data =
        fcPath c.rootPath.data key.data := rfl
    rw [hdata, hk]
    exact fcPath_bucket c.rootPath.data s rest h1 h2 h3 hs0 hs1 hs2
  · intro c key hro hk
    obtain ⟨h1, h2, h3⟩ := rootOK_spec _ hro
    have hdata : (FileCache.filepath c key).data =
        fcPath c.rootPath.data key.data := rfl
    rw [hdata]
    exact fcPath_plain c.rootPath.data key.data h1 h2 h3 hk
  · intro c key rest hro hk
    obtain ⟨h1, h2, h3⟩ := rootOK_spec _ hro
    have hdata : (FileCache.filepath c key).data =
        fcPath c.rootPath.data key.data := rfl
    rw [hdata, hk]
    exact fcPath_emptyBucket c.rootPath.data rest h2 h3

/-- Counterexample to claim C7: the key `"_x"` contains the delimiter `'_'`,
yet its path carries no bucket directory at all — it equals the unbucketed
layout, and differs from the layout with the (empty) first segment spliced
in as a directory. -/
theorem claim_C7_counterexample :
    "_x".data.contains '_' = true ∧
    FileCache.filepath ⟨"/r", 0⟩ "_x" =
      "/r/d/9/d93f2a67ca63f3cd3c9e524b375c3fb8" ∧
    FileCache.filepath ⟨"/r", 0⟩ "_x" ≠
      "/r//d/9/d93f2a67ca63f3cd3c9e524b375c3fb8" := by
  refine ⟨by rfl, by rfl, by decide⟩

/-- Witness for claim C7 at a concrete root and concrete bucketed,
unbucketed and empty-bucket keys. -/
theorem claim_C7_witness :
    ((md5Bytes (strBytes "users_42".data)).length = 16 ∧
      (md5HexChars "users_42".data).length = 32) ∧
    (FileCache.filepath ⟨"/r", 0⟩ "users_42").data =
      shardPath ("/r".data ++ '/' :: "users".data)
        (md5HexChars "users_42".data) ∧
    (FileCache.filepath ⟨"/r", 0⟩ "k").data =
      shardPath "/r".data (md5HexChars "k".data) ∧
    (FileCache.filepath ⟨"/r", 0⟩ "_x").data =
      shardPath "/r".data (md5HexChars "_x".data) :=
  ⟨claim_C7.1 "users_42".data,
    claim_C7.2.1 ⟨"/r", 0⟩ "users_42" "users".data "42".data (by rfl) (by rfl)
      (by decide) (by decide) (by decide),
    claim_C7.2.2.1 ⟨"/r", 0⟩ "k" (by rfl) (by decide),
    claim_C7.2.2.2 ⟨"/r", 0⟩ "_x" "x".data (by rfl) (by rfl)⟩

theorem prefix_shard_self (base hx : List Char) :
    base ++ ['/'] <+: shardPath base hx := by
  rw [shardPath]
  have h : ('/' :: (hx.take 1 ++ '/' :: ((hx.drop 1).take 1 ++ '/' :: hx))) =
      ['/'] ++ (hx.take 1 ++ '/' :: ((hx.drop 1).take 1 ++ '/' :: hx)) := rfl
  rw [h, ← List.append_assoc]
  exact List.prefix_append _ _

/-- A path under one bucket directory is never inside the subtree of a
different slash-free bucket name. -/
theorem bucket_escape (root seg b X : List Char)
    (hseg : '/' ∉ seg) (hb : '/' ∉ b) (hne : b ≠ seg) :
    ¬ ((root ++ '/' :: b) ++ '/' :: X = root ++ '/' :: seg ∨
       (root ++ '/' :: seg) ++ ['/'] <+: (root ++ '/' :: b) ++ '/' :: X) := by
  intro h
  rcases h with h | h
  · have h2 : root ++ ('/' :: (b ++ '/' :: X)) = root ++ '/' :: seg := by
      simpa [List.append_assoc] using h
    have h3 := List.append_cancel_left h2
    have h4 : b ++ '/' :: X = seg := by injection h3
    apply hseg
    rw [← h4]
    exact List.mem_append_right b (List.mem_cons_self _ _)
  · have h2 : (root ++ ['/']) ++ (seg ++ ['/']) <+:
        (root ++ ['/']) ++ (b ++ '/' :: X) := by
      simpa [List.append_assoc] using h
    have h3 := (List.prefix_append_right_inj _).mp h2
    exact hne (seg_prefix_eq seg b X hseg hb h3).symm

/-- A path in the unbucketed layout (first component a single fan-out
character) is never inside the subtree of a bucket name of a different
length. -/
theorem plain_escape (root seg : List Char) (c0 : Char) (X : List Char)
    (hlen : seg.length ≠ 1) (hseg : '/' ∉ seg) (hc0 : c0 ≠ '/') :
    ¬ (root ++ '/' :: c0 :: '/' :: X = root ++ '/' :: seg ∨
       (root ++ '/' :: seg) ++ ['/'] <+: root ++ '/' :: c0 :: '/' :: X) := by
  intro h
  rcases h with h | h
  · have h3 := List.append_cancel_left h
    have h4 : c0 :: '/' :: X = seg := by injection h3
    apply hseg
    rw [← h4]
    exact List.mem_cons_of_mem c0 (List.mem_cons_self _ _)
  · have h2 : (root ++ ['/']) ++ (seg ++ ['/']) <+:
        (root ++ ['/']) ++ ([c0] ++ '/' :: X) := by
      simpa [List.append_assoc] using h
    have h3 := (List.prefix_append_right_inj _).mp h2
    have hb : '/' ∉ [c0] := by
      intro hm
      rcases List.mem_cons.mp hm with hEq | hEmp
      · exact hc0 hEq.symm
      · exact absurd hEmp (List.not_mem_nil _)
    have h4 := seg_prefix_eq seg [c0] X hseg hb h3
    rw [h4] at hlen
    exact hlen rfl

theorem users_data_cons : ("/users").data = '/' :: "users".data := rfl

/-- Claim C8: `Set("users_42", v, 0)` stores under the bucket directory
`users` (its path lies in the subtree `<root>/users`); `Clear("users")`
removes every entry whose key has the prefix `users_` and touches nothing
outside that subtree; and the path of every key of a different bucket
(slash-free, nonempty first segment), of every unbucketed key, and of every
empty-first-segment key lies outside that subtree. -/
theorem claim_C8 (c : FileCache) (fs : FS) (t0 : Int) (v : GoVal)
    (hroot : rootOK c.rootPath = true) :
    inSubtree (c.rootPath ++ "/users") (c.filepath "users_42") = true ∧
    fsGet (FileCache.Set c fs t0 "users_42" v 0) (c.filepath "users_42") =
      some (.good ⟨goStore v, t0, 0⟩) ∧
    (∀ k : String, "users_".data <+: k.data →
        fsGet (FileCache.Clear c (FileCache.Set c fs t0 "users_42" v 0)
          "users").1 (c.filepath k) = none) ∧
    (∀ p : String, inSubtree (c.rootPath ++ "/users") p = false →
        fsGet (FileCache.Clear c (FileCache.Set c fs t0 "users_42" v 0)
          "users").1 p = fsGet (FileCache.Set c fs t0 "users_42" v 0) p) ∧
    (∀ (k : String) (b rest : List Char), k.data = b ++ '_' :: rest →
        b ≠ [] → '_' ∉ b → '/' ∉ b → b ≠ "users".data →
        inSubtree (c.rootPath ++ "/users") (c.filepath k) = false) ∧
    (∀ k : String, '_' ∉ k.data →
        inSubtree (c.rootPath ++ "/users") (c.filepath k) = false) ∧
    (∀ (k : String) (rest : List Char), k.data = '_' :: rest →
        inSubtree (c.rootPath ++ "/users") (c.filepath k) = false) := by
  obtain ⟨hr1, hr2, hr3⟩ := rootOK_spec _ hroot
  have hdird : (c.rootPath ++ "/users").data =
      c.rootPath.data ++ '/' :: "users".data := by
    rw [String.data_append, users_data_cons]
  have hdirs : c.rootPath ++ "/" ++ "users" = c.rootPath ++ "/users" := by
    rw [String.ext_iff]
    simp [String.data_append, users_data_cons]
  have husl : '/' ∉ "users".data := by decide
  have huus : '_' ∉ "users".data := by decide
  have hune : "users".data ≠ [] := by decide
  -- the path of any key whose first segment is `users`
  have hshape : ∀ (k : String) (rest : List Char),
      k.data = "users".data ++ '_' :: rest →
      (FileCache.filepath c k).data =
        shardPath (c.rootPath.data ++ '/' :: "users".data) (md5HexChars k.data) := by
    intro k rest hk
    have hdata : (FileCache.filepath c k).data =
        fcPath c.rootPath.data k.data := rfl
    rw [hdata, hk]
    exact fcPath_bucket c.rootPath.data "users".data rest hr1 hr2 hr3 hune huus husl
  have hin : ∀ (k : String) (rest : List Char),
      k.data = "users".data ++ '_' :: rest →
      inSubtree (c.rootPath ++ "/users") (c.filepath k) = true := by
    intro k rest hk
    rw [inSubtree_spec]
    right
    rw [hdird, hshape k rest hk]
    exact prefix_shard_self _ _
  have h42 : ("users_42" : String).data = "users".data ++ '_' :: "42".data := by
    decide
  have hclear : FileCache.Clear c (FileCache.Set c fs t0 "users_42" v 0)
      "users" =
      ((FileCache.Set c fs t0 "users_42" v 0).filter
        (fun e => !inSubtree (c.rootPath ++ "/" ++ "users") e.1), none) := by
    rw [FileCache.Clear, if_pos (by decide)]
  refine ⟨hin "users_42" "42".data h42, ?_, ?_, ?_, ?_, ?_, ?_⟩
  · simp [FileCache.Set, fsGet_fsWrite_self]
  · intro k hpre
    obtain ⟨kr, hkr⟩ := hpre
    have hk : k.data = "users".data ++ '_' :: kr := by
      rw [← hkr]
      rfl
    rw [hclear]
    show fsGet ((FileCache.Set c fs t0 "users_42" v 0).filter
      (fun e => !inSubtree (c.rootPath ++ "/" ++ "users") e.1)) (c.filepath k) = none
    exact fsGet_filterKey_false
      (fun s => !inSubtree (c.rootPath ++ "/" ++ "users") s) _ _
      (by
        rw [hdirs]
        show (!inSubtree (c.rootPath ++ "/users") (c.filepath k)) = false
        rw [hin k kr hk]
        rfl)
  · intro p hout
    rw [hclear]
    show fsGet ((FileCache.Set c fs t0 "users_42" v 0).filter
        (fun e => !inSubtree (c.rootPath ++ "/" ++ "users") e.1)) p =
      fsGet (FileCache.Set c fs t0 "users_42" v 0) p
    exact fsGet_filterKey_true
      (fun s => !inSubtree (c.rootPath ++ "/" ++ "users") s) _ p
      (by
        rw [hdirs]
        show (!inSubtree (c.rootPath ++ "/users") p) = true
        rw [hout]
        rfl)
  · intro k b rest hk hb0 hb1 hb2 hb3
    have hdata : (FileCache.filepath c k).data =
        fcPath c.rootPath.data k.data := rfl
    have hpath : (FileCache.filepath c k).data =
        shardPath (c.rootPath.data ++ '/' :: b) (md5HexChars k.data) := by
      rw [hdata, hk]
      exact fcPath_bucket c.rootPath.data b rest hr1 hr2 hr3 hb0 hb1 hb2
    apply Bool.eq_false_iff.mpr
    intro htrue
    have h2 := (inSubtree_spec _ _).mp htrue
    rw [hpath, hdird, shardPath] at h2
    exact bucket_escape c.rootPath.data "users".data b _ husl hb2 hb3 h2
  · intro k hk
    have hdata : (FileCache.filepath c k).data =
        fcPath c.rootPath.data k.data := rfl
    have hpath : (FileCache.filepath c k).data =
        shardPath c.rootPath.data (md5HexChars k.data) := by
      rw [hdata]
      exact fcPath_plain c.rootPath.data k.data hr1 hr2 hr3 hk
    have hlen32 := md5HexChars_length k.data
    have hslash := md5HexChars_ne_slash k.data
    rcases hh : md5HexChars k.data with _ | ⟨c0, htail⟩
    · rw [hh] at hlen32; simp at hlen32
    apply Bool.eq_false_iff.mpr
    intro htrue
    have h2 := (inSubtree_spec _ _).mp htrue
    rw [hpath, hdird, hh, shardPath] at h2
    have hc0 : c0 ≠ '/' := by
      rw [hh] at hslash
      exact hslash c0 (List.mem_cons_self _ _)
    refine plain_escape c.rootPath.data "users".data c0
      (((c0 :: htail).drop 1).take 1 ++ '/' :: (c0 :: htail)) (by decide) husl hc0 ?_
    simpa using h2
  · intro k rest hk
    have hdata : (FileCache.filepath c k).data =
        fcPath c.rootPath.data k.data := rfl
    have hpath : (FileCache.filepath c k).data =
        shardPath c.rootPath.data (md5HexChars k.data) := by
      rw [hdata, hk]
      exact fcPath_emptyBucket c.rootPath.data rest hr2 hr3
    have hlen32 := md5HexChars_length k.data
    have hslash := md5HexChars_ne_slash k.data
    rcases hh : md5HexChars k.data with _ | ⟨c0, htail⟩
    · rw [hh] at hlen32; simp at hlen32
    apply Bool.eq_false_iff.mpr
    intro htrue
    have h2 := (inSubtree_spec _ _).mp htrue
    rw [hpath, hdird, hh, shardPath] at h2
    have hc0 : c0 ≠ '/' := by
      rw [hh] at hslash
      exact hslash c0 (List.mem_cons_self _ _)
    refine plain_escape c.rootPath.data "users".data c0
      (((c0 :: htail).drop 1).take 1 ++ '/' :: (c0 :: htail)) (by decide) husl hc0 ?_
    simpa using h2

/-- Witness for claim C8 at a concrete root, with keys of the `users`
bucket, a different bucket, no bucket, and an empty first segment. -/
theorem claim_C8_witness :
    inSubtree (cW.rootPath ++ "/users") (cW.filepath "users_42") = true ∧
    fsGet (FileCache.Set cW [] 0 "users_42" (.vstr "x") 0)
      (cW.filepath "users_42") = some (.good ⟨goStore (.vstr "x"), 0, 0⟩) ∧
    fsGet (FileCache.Clear cW (FileCache.Set cW [] 0 "users_42" (.vstr "x") 0)
      "users").1 (cW.filepath "users_42") = none ∧
    inSubtree (cW.rootPath ++ "/users") (cW.filepath "posts_1") = false ∧
    inSubtree (cW.rootPath ++ "/users") (cW.filepath "plain") = false ∧
    inSubtree (cW.rootPath ++ "/users") (cW.filepath "_x") = false := by
  have h := claim_C8 cW [] 0 (.vstr "x") (by decide)
  exact ⟨h.1, h.2.1, h.2.2.1 "users_42" (by decide),
    h.2.2.2.2.1 "posts_1" "posts".data "1".data (by rfl) (by decide) (by decide)
      (by decide) (by decide),
    h.2.2.2.2.2.1 "plain" (by decide),
    h.2.2.2.2.2.2 "_x" "x".data (by rfl)⟩
